import Mathlib

/-!
Verification of the ic-id-protocol translation layer
(`packages/identity-provider/src/protocol/ic-id-protocol.ts`).

The development shallowly embeds the protocol code: strings are Lean
strings, query parameters are association lists, JavaScript `undefined`
is `Option.none`, fallible operations return `Except Err`.  External
collaborators that are not part of the given source file (the principal
text codec, the hex byte codec, the generic oauth2 query parser, the
WHATWG URL object) are modelled from the specification, each marked in
its doc comment.
-/

namespace IcId

/-- Failure values surfaced by the protocol layer.  `jsError` models a
thrown `Error` with its message, `assertionFailed` a failed `assert.ok`,
`malformedUrl` the TypeError thrown by the URL constructor,
`identifierParse` the failure of the principal text codec on the given
segment, `jsonError` a JSON.parse syntax failure, `hexError` a failure
of the hex decoder, and `typeError` a property access on null. -/
inductive Err where
  | jsError (msg : String)
  | assertionFailed
  | malformedUrl
  | identifierParse (segment : String)
  | jsonError
  | hexError
  | typeError
deriving DecidableEq, Repr

/-- Hex digit characters, lowercase. -/
def hexDigitChar (k : Nat) : Char :=
  if k = 0 then '0' else if k = 1 then '1' else if k = 2 then '2'
  else if k = 3 then '3' else if k = 4 then '4' else if k = 5 then '5'
  else if k = 6 then '6' else if k = 7 then '7' else if k = 8 then '8'
  else if k = 9 then '9' else if k = 10 then 'a' else if k = 11 then 'b'
  else if k = 12 then 'c' else if k = 13 then 'd' else if k = 14 then 'e'
  else 'f'

/-- Numeric value of a hex digit character, accepting both cases;
`none` when the character is not a hex digit. -/
def hexDigitVal (c : Char) : Option Nat :=
  if c = '0' then some 0 else if c = '1' then some 1 else if c = '2' then some 2
  else if c = '3' then some 3 else if c = '4' then some 4 else if c = '5' then some 5
  else if c = '6' then some 6 else if c = '7' then some 7 else if c = '8' then some 8
  else if c = '9' then some 9
  else if c = 'a' ∨ c = 'A' then some 10
  else if c = 'b' ∨ c = 'B' then some 11
  else if c = 'c' ∨ c = 'C' then some 12
  else if c = 'd' ∨ c = 'D' then some 13
  else if c = 'e' ∨ c = 'E' then some 14
  else if c = 'f' ∨ c = 'F' then some 15
  else none

/-- Modelled from the spec: the byte-to-hex direction of the hex codec
(`hexEncodeUintArray` from `src/bytes.ts`, which is not included in the
given sources).  Each byte becomes two lowercase hex digits. -/
def hexEncodeChars : List Nat → List Char
  | [] => []
  | b :: rest => hexDigitChar (b / 16) :: hexDigitChar (b % 16) :: hexEncodeChars rest

/-- Modelled from the spec: `hexEncodeUintArray` of `src/bytes.ts`,
hex-encoding a byte array into a string. -/
def hexEncodeUintArray (bytes : List Nat) : String :=
  String.mk (hexEncodeChars bytes)

/-- Modelled from the spec: the hex-to-byte direction of the hex codec
(`hexToBytes` from `src/bytes.ts`): consume two hex digits per byte,
failing on a non-hex character or an odd-length input. -/
def hexDecodeChars : List Char → Except Err (List Nat)
  | [] => .ok []
  | [_] => .error .hexError
  | c1 :: c2 :: rest =>
    match hexDigitVal c1, hexDigitVal c2 with
    | some h, some l => (hexDecodeChars rest).map (fun bs => (16 * h + l) :: bs)
    | _, _ => .error .hexError

/-- Modelled from the spec: `hexToBytes` of `src/bytes.ts`. -/
def hexToBytes (s : String) : Except Err (List Nat) :=
  hexDecodeChars s.data

theorem hexDigitVal_hexDigitChar (k : Nat) (hk : k < 16) :
    hexDigitVal (hexDigitChar k) = some k := by
  interval_cases k <;> rfl

theorem hexDecode_hexEncode (bs : List Nat) (h : ∀ b ∈ bs, b < 256) :
    hexDecodeChars (hexEncodeChars bs) = .ok bs := by
  induction bs with
  | nil => rfl
  | cons b rest ih =>
    have hb : b < 256 := h b (List.mem_cons_self b rest)
    have hrest : ∀ x ∈ rest, x < 256 := fun x hx => h x (List.mem_cons_of_mem b hx)
    have h1 : b / 16 < 16 := by omega
    have h2 : b % 16 < 16 := by omega
    simp only [hexEncodeChars, hexDecodeChars, hexDigitVal_hexDigitChar _ h1,
      hexDigitVal_hexDigitChar _ h2, ih hrest, Except.map]
    have : 16 * (b / 16) + b % 16 = b := by omega
    rw [this]

theorem hexDigitChar_ne_space (k : Nat) (hk : k < 16) : hexDigitChar k ≠ ' ' := by
  intro h
  have hv := hexDigitVal_hexDigitChar k hk
  rw [h] at hv
  have hnone : hexDigitVal ' ' = none := rfl
  rw [hnone] at hv
  cases hv

theorem hexEncodeChars_ne_space (bs : List Nat) (hlt : ∀ b ∈ bs, b < 256) :
    ∀ c ∈ hexEncodeChars bs, c ≠ ' ' := by
  induction bs with
  | nil => intro c hc; cases hc
  | cons b rest ih =>
    have hb : b < 256 := hlt b (List.mem_cons_self b rest)
    intro c hc
    simp only [hexEncodeChars, List.mem_cons] at hc
    rcases hc with h | h | h
    · rw [h]; exact hexDigitChar_ne_space _ (by omega)
    · rw [h]; exact hexDigitChar_ne_space _ (by omega)
    · exact ih (fun x hx => hlt x (List.mem_cons_of_mem b hx)) c h

/-- Modelled from the spec: the opaque principal identifier of the
external principal codec (`Principal` of the agent package, whose
internals are out of scope).  A principal is an opaque byte blob. -/
structure Principal where
  blob : List (Fin 256)
deriving DecidableEq, Repr

/-- Modelled from the spec: the identifier-to-canonical-text direction
of the principal codec (`Principal.toText`).  The canonical text is a
nonempty, space-free string determined injectively by the blob. -/
def Principal.toText (p : Principal) : String :=
  String.mk ('i' :: 'd' :: '-' :: hexEncodeChars (p.blob.map Fin.val))

/-- Modelled from the spec: the text-to-identifier direction of the
principal codec (`Principal.fromText`), failing on malformed text and
inverting `Principal.toText` on canonical text. -/
def Principal.fromText (s : String) : Except Err Principal :=
  match s.data with
  | 'i' :: 'd' :: '-' :: rest =>
    match hexDecodeChars rest with
    | .ok bs =>
      if h : ∀ b ∈ bs, b < 256 then
        .ok ⟨bs.pmap (fun b hb => (⟨b, hb⟩ : Fin 256)) h⟩
      else .error (.identifierParse s)
    | .error _ => .error (.identifierParse s)
  | _ => .error (.identifierParse s)

theorem pmap_mk_map_val (l : List (Fin 256)) (h : ∀ b ∈ l.map Fin.val, b < 256) :
    (l.map Fin.val).pmap (fun b hb => (⟨b, hb⟩ : Fin 256)) h = l := by
  induction l with
  | nil => rfl
  | cons x rest ih => simp [List.pmap, ih]

theorem Principal.fromText_toText (p : Principal) :
    Principal.fromText (Principal.toText p) = .ok p := by
  have hlt : ∀ b ∈ p.blob.map Fin.val, b < 256 := by
    intro b hb
    rcases List.mem_map.mp hb with ⟨x, _, hx⟩
    exact hx ▸ x.isLt
  show (match hexDecodeChars (hexEncodeChars (p.blob.map Fin.val)) with
    | Except.ok bs =>
      if h : ∀ b ∈ bs, b < 256 then
        Except.ok (⟨bs.pmap (fun b hb => (⟨b, hb⟩ : Fin 256)) h⟩ : Principal)
      else Except.error (Err.identifierParse (Principal.toText p))
    | Except.error _ =>
        Except.error (Err.identifierParse (Principal.toText p))) = Except.ok p
  rw [hexDecode_hexEncode _ hlt]
  simp only [dif_pos hlt]
  rw [pmap_mk_map_val]

theorem Principal.toText_ne_space : ∀ p : Principal, ∀ c ∈ (Principal.toText p).data, c ≠ ' ' := by
  intro p c hc
  have hdata : (Principal.toText p).data
      = 'i' :: 'd' :: '-' :: hexEncodeChars (p.blob.map Fin.val) := rfl
  rw [hdata] at hc
  simp only [List.mem_cons] at hc
  have hlt : ∀ b ∈ p.blob.map Fin.val, b < 256 := by
    intro b hb
    rcases List.mem_map.mp hb with ⟨x, _, hx⟩
    exact hx ▸ x.isLt
  rcases hc with h | h | h | h
  · subst h; decide
  · subst h; decide
  · subst h; decide
  · exact hexEncodeChars_ne_space _ hlt c h

theorem Principal.toText_ne_empty (p : Principal) : Principal.toText p ≠ "" := by
  simp only [Principal.toText]
  intro h
  have : ('i' :: 'd' :: '-' :: hexEncodeChars (p.blob.map Fin.val)) = [] :=
    congrArg String.data h
  cases this

/-- Embedding of the JavaScript single-space split
`scope.split(' ')`: splitting on the space character, keeping empty
segments (so that an empty input gives one empty segment). -/
def splitChars : List Char → List (List Char)
  | [] => [[]]
  | c :: rest =>
    if c = ' ' then [] :: splitChars rest
    else
      match splitChars rest with
      | [] => [[c]]
      | s :: ss => (c :: s) :: ss

/-- JavaScript `s.split(' ')` on Lean strings. -/
def jsSplitSpace (s : String) : List String :=
  (splitChars s.data).map String.mk

/-- Embedding of the JavaScript `[..].join(' ')`. -/
def joinSpace : List (List Char) → List Char
  | [] => []
  | [x] => x
  | x :: y :: t => x ++ ' ' :: joinSpace (y :: t)

/-- Scope entry `ICanisterScope` of the source. -/
structure ICanisterScope where
  principal : Principal
deriving DecidableEq, Repr

/-- Parsed scope `IParsedScopeString` of the source. -/
structure IParsedScopeString where
  canisters : List ICanisterScope
deriving DecidableEq, Repr

/-- Segments the scope parser works on: split on the space character,
then drop empty segments (the `.filter(Boolean)` of the source). -/
def scopeSegments (scope : String) : List String :=
  (jsSplitSpace scope).filter (fun seg => seg ≠ "")

/-- Exception-propagating map, embedding a JavaScript `Array.map` whose
callback can throw: the first thrown error aborts the whole map. -/
def mapExcept (f : α → Except Err β) : List α → Except Err (List β)
  | [] => .ok []
  | a :: l =>
    match f a with
    | .error e => .error e
    | .ok b => (mapExcept f l).map (fun bs => b :: bs)

/-- Embedding of `parseScopeString`: split the scope on spaces, drop
empty segments, decode every segment through the principal codec,
propagating the first failure (the source rethrows the same error after
logging it). -/
def parseScopeString (scope : String) : Except Err IParsedScopeString :=
  match mapExcept Principal.fromText (scopeSegments scope) with
  | .ok principals => .ok ⟨principals.map (fun p => ⟨p⟩)⟩
  | .error e => .error e

/-- Embedding of `stringifyScope`: canonical text of every entry,
joined with single spaces, in order. -/
def stringifyScope (scopeDescription : IParsedScopeString) : String :=
  String.mk (joinSpace (scopeDescription.canisters.map
    (fun cs => (Principal.toText cs.principal).data)))

theorem splitChars_ne_nil (cs : List Char) : splitChars cs ≠ [] := by
  induction cs with
  | nil => simp [splitChars]
  | cons c rest ih =>
    simp only [splitChars]
    split_ifs
    · simp
    · cases h : splitChars rest <;> simp

theorem splitChars_no_space (cs : List Char) (h : ∀ c ∈ cs, c ≠ ' ') :
    splitChars cs = [cs] := by
  induction cs with
  | nil => rfl
  | cons c rest ih =>
    have hc : c ≠ ' ' := h c (List.mem_cons_self c rest)
    have hrest := ih (fun x hx => h x (List.mem_cons_of_mem c hx))
    simp only [splitChars, if_neg hc, hrest]

theorem splitChars_append_space (x r : List Char) (h : ∀ c ∈ x, c ≠ ' ') :
    splitChars (x ++ ' ' :: r) = x :: splitChars r := by
  induction x with
  | nil => simp [splitChars]
  | cons c x ih =>
    have hc : c ≠ ' ' := h c (List.mem_cons_self c x)
    have hx := ih (fun a ha => h a (List.mem_cons_of_mem c ha))
    simp only [List.cons_append, splitChars, if_neg hc]
    rw [show x.append (' ' :: r) = x ++ ' ' :: r from rfl, hx]

theorem splitChars_joinSpace (ls : List (List Char))
    (hns : ∀ l ∈ ls, ∀ c ∈ l, c ≠ ' ') (hne : ls ≠ []) :
    splitChars (joinSpace ls) = ls := by
  induction ls with
  | nil => exact absurd rfl hne
  | cons x t ih =>
    cases t with
    | nil =>
      simp only [joinSpace]
      exact splitChars_no_space x (hns x (List.mem_cons_self x []))
    | cons y t2 =>
      simp only [joinSpace]
      rw [splitChars_append_space x _ (hns x (List.mem_cons_self x _))]
      rw [ih (fun l hl => hns l (List.mem_cons_of_mem x hl)) (by simp)]

theorem mapExcept_map_ok {α β : Type} (f : α → Except Err β) (g : β → α)
    (hfg : ∀ b, f (g b) = .ok b) (bs : List β) :
    mapExcept f (bs.map g) = .ok bs := by
  induction bs with
  | nil => rfl
  | cons b t ih => simp only [List.map_cons, mapExcept, hfg b, ih, Except.map]

/-- C1: for every ordered list of principals, decoding the scope string
produced by encoding it round-trips exactly, order preserved, no entry
duplicated or lost. -/
theorem scope_encode_decode_roundtrip (sd : IParsedScopeString) :
    parseScopeString (stringifyScope sd) = .ok sd := by
  obtain ⟨canisters⟩ := sd
  cases canisters with
  | nil => rfl
  | cons c0 rest =>
    have htexts : ∀ l ∈ (c0 :: rest).map (fun cs => (Principal.toText cs.principal).data),
        ∀ ch ∈ l, ch ≠ ' ' := by
      intro l hl ch hch
      rcases List.mem_map.mp hl with ⟨cs, _, hcs⟩
      exact Principal.toText_ne_space cs.principal ch (hcs ▸ hch)
    have hsegs : scopeSegments (stringifyScope ⟨c0 :: rest⟩)
        = (c0 :: rest).map (fun cs => Principal.toText cs.principal) := by
      unfold scopeSegments jsSplitSpace stringifyScope
      have hdata : (String.mk (joinSpace ((c0 :: rest).map
          (fun cs : ICanisterScope => (Principal.toText cs.principal).data)))).data
          = joinSpace ((c0 :: rest).map
            (fun cs : ICanisterScope => (Principal.toText cs.principal).data)) := rfl
      rw [hdata, splitChars_joinSpace _ htexts (by simp), List.map_map]
      have hmk : (String.mk ∘ fun cs : ICanisterScope => (Principal.toText cs.principal).data)
          = fun cs : ICanisterScope => Principal.toText cs.principal := by
        funext cs; rfl
      rw [hmk]
      rw [List.filter_eq_self.mpr]
      intro s hs
      rcases List.mem_map.mp hs with ⟨cs, _, hcs⟩
      simp only [← hcs, decide_eq_true_eq]
      exact Principal.toText_ne_empty cs.principal
    unfold parseScopeString
    rw [hsegs]
    have hmm : (c0 :: rest).map (fun cs => Principal.toText cs.principal)
        = ((c0 :: rest).map ICanisterScope.principal).map Principal.toText := by
      rw [List.map_map]; rfl
    rw [hmm, mapExcept_map_ok Principal.fromText Principal.toText Principal.fromText_toText]
    simp only [List.map_map]
    have : ((fun p => (⟨p⟩ : ICanisterScope)) ∘ ICanisterScope.principal) = id := by
      funext cs; rfl
    rw [this, List.map_id]

theorem mapExcept_error {α β : Type} (f : α → Except Err β) (l : List α)
    (hex : ∃ x ∈ l, ∃ e, f x = .error e) :
    ∃ x ∈ l, ∃ e, f x = .error e ∧ mapExcept f l = .error e := by
  induction l with
  | nil => rcases hex with ⟨x, hx, _⟩; cases hx
  | cons a t ih =>
    cases hfa : f a with
    | error e => exact ⟨a, List.mem_cons_self a t, e, hfa, by simp [mapExcept, hfa]⟩
    | ok b =>
      have hext : ∃ x ∈ t, ∃ e, f x = .error e := by
        rcases hex with ⟨x, hx, e, hfe⟩
        rcases List.mem_cons.mp hx with h | h
        · rw [h, hfa] at hfe; cases hfe
        · exact ⟨x, h, e, hfe⟩
      rcases ih hext with ⟨x, hx, e, hfe, hme⟩
      exact ⟨x, List.mem_cons_of_mem a hx, e, hfe, by simp [mapExcept, hfa, hme, Except.map]⟩

/-- C9: if any scope segment fails to decode as a principal, the
failure propagates unchanged to the caller of `parseScopeString` (no
partial result, no dropped segment); in particular the scope string
consisting of the single segment `not-a-principal` fails with the
identifier parse error carrying that segment. -/
theorem scope_decode_error_propagates :
    (∀ scope seg e, seg ∈ scopeSegments scope → Principal.fromText seg = .error e →
      ∃ seg2 ∈ scopeSegments scope, ∃ e2, Principal.fromText seg2 = .error e2 ∧
        parseScopeString scope = .error e2) ∧
    parseScopeString "not-a-principal" = .error (.identifierParse "not-a-principal") := by
  constructor
  · intro scope seg e hmem hfe
    rcases mapExcept_error Principal.fromText (scopeSegments scope)
        ⟨seg, hmem, e, hfe⟩ with ⟨x, hx, e2, hfe2, hme⟩
    exact ⟨x, hx, e2, hfe2, by unfold parseScopeString; rw [hme]⟩
  · rfl

/-- Witness for C9 at the concrete scope string `not-a-principal`. -/
theorem scope_decode_error_propagates_witness :
    ∃ seg2 ∈ scopeSegments "not-a-principal", ∃ e2,
      Principal.fromText seg2 = .error e2 ∧
      parseScopeString "not-a-principal" = .error e2 :=
  scope_decode_error_propagates.1 "not-a-principal" "not-a-principal"
    (.identifierParse "not-a-principal") (by decide) (by rfl)

theorem length_dropWhile_le (p : Char → Bool) (l : List Char) :
    (l.dropWhile p).length ≤ l.length := by
  induction l with
  | nil => simp [List.dropWhile]
  | cons c r ih =>
    by_cases hc : p c
    · rw [List.dropWhile_cons, if_pos hc]
      simp only [List.length_cons]
      omega
    · rw [List.dropWhile_cons, if_neg hc]

/-- Specification-level word splitting: the maximal nonempty runs of
characters other than the space character, in order.  Leading, trailing
and repeated spaces contribute no words. -/
def wordsSpec : List Char → List (List Char)
  | [] => []
  | c :: rest =>
    if c = ' ' then wordsSpec rest
    else (c :: rest.takeWhile (fun x => x ≠ ' ')) :: wordsSpec (rest.dropWhile (fun x => x ≠ ' '))
termination_by cs => cs.length
decreasing_by
  · simp only [List.length_cons]; omega
  · simp only [List.length_cons]
    exact Nat.lt_succ_of_le (length_dropWhile_le _ rest)

/-- Tail behavior of `splitChars` after the first segment: the first
delimiter is consumed and splitting continues. -/
def tailSplit : List Char → List (List Char)
  | [] => []
  | _ :: r => splitChars r

theorem splitChars_take_drop (cs : List Char) :
    splitChars cs = cs.takeWhile (fun c => c ≠ ' ')
      :: tailSplit (cs.dropWhile (fun c => c ≠ ' ')) := by
  induction cs with
  | nil => rfl
  | cons c rest ih =>
    by_cases hc : c = ' '
    · subst hc
      simp only [splitChars, if_pos rfl, List.takeWhile_cons, List.dropWhile_cons]
      norm_num [tailSplit]
    · simp only [splitChars, if_neg hc, List.takeWhile_cons, List.dropWhile_cons]
      have hdc : (decide (c ≠ ' ')) = true := by simp [hc]
      rw [hdc]
      simp only [if_true]
      rw [ih]

theorem dropWhile_head_not (p : Char → Bool) (l : List Char) :
    l.dropWhile p = [] ∨ ∃ x r, l.dropWhile p = x :: r ∧ p x = false := by
  induction l with
  | nil => left; rfl
  | cons c rest ih =>
    by_cases hc : p c = true
    · simpa [List.dropWhile_cons, hc] using ih
    · right
      exact ⟨c, rest, by simp [List.dropWhile_cons, hc], by simpa using hc⟩

theorem splitChars_filter_eq_words :
    ∀ n cs, List.length cs ≤ n →
      (splitChars cs).filter (fun l => decide (l ≠ [])) = wordsSpec cs := by
  intro n
  induction n with
  | zero =>
    intro cs hcs
    have hnil : cs = [] := List.length_eq_zero.mp (Nat.le_zero.mp hcs)
    subst hnil
    rw [show splitChars [] = [[]] from rfl,
      List.filter_cons_of_neg (by simp), wordsSpec]
    rfl
  | succ n ih =>
    intro cs hcs
    cases cs with
    | nil =>
      rw [show splitChars [] = [[]] from rfl,
        List.filter_cons_of_neg (by simp), wordsSpec]
      rfl
    | cons c rest =>
      by_cases hc : c = ' '
      · subst hc
        have h1 : splitChars (' ' :: rest) = [] :: splitChars rest := by
          simp [splitChars]
        have h2 : wordsSpec (' ' :: rest) = wordsSpec rest := by
          rw [wordsSpec]; simp
        rw [h1, h2, List.filter_cons_of_neg (by simp)]
        have hlen : List.length rest ≤ n := by
          simp only [List.length_cons] at hcs; omega
        exact ih rest hlen
      · rw [splitChars_take_drop]
        have hTake : List.takeWhile (fun x => decide (x ≠ ' ')) (c :: rest)
            = c :: List.takeWhile (fun x => decide (x ≠ ' ')) rest := by
          rw [List.takeWhile_cons, decide_eq_true hc, if_pos rfl]
        have hDrop : List.dropWhile (fun x => decide (x ≠ ' ')) (c :: rest)
            = List.dropWhile (fun x => decide (x ≠ ' ')) rest := by
          rw [List.dropWhile_cons, decide_eq_true hc, if_pos rfl]
        have hw : wordsSpec (c :: rest)
            = (c :: List.takeWhile (fun x => decide (x ≠ ' ')) rest)
              :: wordsSpec (List.dropWhile (fun x => decide (x ≠ ' ')) rest) := by
          rw [wordsSpec]
          simp [hc]
        rw [hTake, hDrop, hw, List.filter_cons_of_pos (by simp)]
        rcases dropWhile_head_not (fun x => decide (x ≠ ' ')) rest with hnil | ⟨x, r, hxr, hx⟩
        · rw [hnil]
          rw [show tailSplit [] = [] from rfl, wordsSpec]
          rfl
        · rw [hxr]
          rw [show tailSplit (x :: r) = splitChars r from rfl]
          have hx' : x = ' ' := by simpa using hx
          subst hx'
          have hlen : List.length r ≤ n := by
            have h1 := length_dropWhile_le (fun x => decide (x ≠ ' ')) rest
            rw [hxr] at h1
            simp only [List.length_cons] at h1 hcs
            omega
          rw [ih r hlen]
          have h2 : wordsSpec (' ' :: r) = wordsSpec r := by
            rw [wordsSpec]; simp
          rw [h2]

/-- Counterexample for C10: a space does delimit two scope segments,
but a tab does not — the tab-joined string is handed to the principal
codec as one segment and the parse fails, instead of the two segments
claim C10 would require. -/
theorem scope_split_whitespace_counterexample :
    parseScopeString "id-00 id-00"
      = .ok ⟨[⟨⟨[0]⟩⟩, ⟨⟨[0]⟩⟩]⟩ ∧
    parseScopeString "id-00\tid-00"
      = .error (.identifierParse "id-00\tid-00") := by
  constructor
  · rfl
  · rfl

/-- C10 (amended): `parseScopeString` splits its input on the space
character only (not on arbitrary whitespace) and drops empty segments:
the decoded segments are exactly the maximal nonempty space-free runs,
each decoded individually, so leading, trailing or repeated space
delimiters contribute no entries. -/
theorem scope_split_on_space_drops_empty (scope : String) :
    scopeSegments scope = (wordsSpec scope.data).map String.mk ∧
    parseScopeString scope =
      match mapExcept Principal.fromText ((wordsSpec scope.data).map String.mk) with
      | .ok principals => .ok ⟨principals.map (fun p => ⟨p⟩)⟩
      | .error e => .error e := by
  have hsegs : scopeSegments scope = (wordsSpec scope.data).map String.mk := by
    unfold scopeSegments jsSplitSpace
    rw [List.filter_map]
    have hpre : ((fun seg => decide (seg ≠ "")) ∘ String.mk) = fun l => decide (l ≠ []) := by
      funext l
      by_cases hl : l = []
      · subst hl; rfl
      · have : String.mk l ≠ "" := by
          intro hcontra
          exact hl (congrArg String.data hcontra)
        simp [hl, this]
    rw [hpre, splitChars_filter_eq_words (List.length scope.data) scope.data le_rfl]
  exact ⟨hsegs, by unfold parseScopeString; rw [hsegs]⟩

/-! URL model.  The source manipulates WHATWG `URL` objects; the model
keeps the parts the protocol layer touches: scheme, host, path and the
ordered query parameter list.  Parsing requires an absolute
`scheme://host` URL and normalizes an empty path to the root path, so
that serialization after parsing is a genuine normalization. -/

/-- Split a query string on ampersands, keeping empty segments. -/
def splitAmpChars : List Char → List (List Char)
  | [] => [[]]
  | c :: rest =>
    if c = '&' then [] :: splitAmpChars rest
    else
      match splitAmpChars rest with
      | [] => [[c]]
      | s :: ss => (c :: s) :: ss

/-- Decompose one `key=value` query segment; a segment without an
equals sign yields an empty value. -/
def parseQueryPair (seg : List Char) : String × String :=
  let k := seg.takeWhile (fun c => c ≠ '=')
  match seg.dropWhile (fun c => c ≠ '=') with
  | '=' :: v => (String.mk k, String.mk v)
  | _ => (String.mk k, "")

/-- Parse the part of a URL after the question mark into ordered query
parameters, ignoring empty segments. -/
def parseQuery (cs : List Char) : List (String × String) :=
  ((splitAmpChars cs).filter (fun l => l ≠ [])).map parseQueryPair

/-- Model of a WHATWG URL: scheme, host, path and ordered query
parameters. -/
structure Url where
  scheme : String
  host : String
  path : String
  query : List (String × String)
deriving DecidableEq, Repr

/-- Model of the URL constructor: parse an absolute
`scheme://host/path?query` URL, failing (like the constructor throwing)
on anything without an alphabetic scheme, the `://` separator and a
nonempty host.  An absent path is normalized to `/`. -/
def parseURL (s : String) : Option Url :=
  let cs := s.data
  let sch := cs.takeWhile (fun c => c.isAlpha)
  if sch = [] then none
  else
    match cs.drop sch.length with
    | ':' :: '/' :: '/' :: rest =>
      let host := rest.takeWhile (fun c => c ≠ '/' ∧ c ≠ '?')
      if host = [] then none
      else
        match rest.drop host.length with
        | [] => some ⟨String.mk sch, String.mk host, "/", []⟩
        | '?' :: q => some ⟨String.mk sch, String.mk host, "/", parseQuery q⟩
        | rest2 =>
          let path := rest2.takeWhile (fun c => c ≠ '?')
          match rest2.drop path.length with
          | '?' :: q => some ⟨String.mk sch, String.mk host, String.mk path, parseQuery q⟩
          | _ => some ⟨String.mk sch, String.mk host, String.mk path, []⟩
    | _ => none

/-- Serialize the query parameter list, empty when there are no
parameters. -/
def queryString (q : List (String × String)) : String :=
  match q with
  | [] => ""
  | _ => "?" ++ String.intercalate "&" (q.map (fun kv => kv.1 ++ "=" ++ kv.2))

/-- Model of `URL.toString`. -/
def urlToString (u : Url) : String :=
  u.scheme ++ "://" ++ u.host ++ u.path ++ queryString u.query

/-- Model of `URLSearchParams.get`: value of the first parameter with
the given key. -/
def getParam : List (String × String) → String → Option String
  | [], _ => none
  | (k2, v) :: rest, k => if k2 = k then some v else getParam rest k

/-- Model of `URLSearchParams.set`: replace the value of the first
parameter with the key in place, deleting any later parameters with the
same key; append when the key is absent. -/
def setParam : List (String × String) → String → String → List (String × String)
  | [], k, v => [(k, v)]
  | (k2, v2) :: rest, k, v =>
    if k2 = k then (k, v) :: rest.filter (fun kv => kv.1 ≠ k)
    else (k2, v2) :: setParam rest k v

/-- Model of `URLSearchParams.delete`: remove every parameter with the
key. -/
def deleteParam (q : List (String × String)) (k : String) : List (String × String) :=
  q.filter (fun kv => kv.1 ≠ k)

/-! Protocol message shapes. -/

/-- Session identity carried in an AuthenticationRequest: a hex-encoded
session public key. -/
structure SessionIdentity where
  hex : String
deriving DecidableEq, Repr

/-- The `AuthenticationRequest` shape of the source (the constant
`type` tag of the source object is represented by the Lean type
itself).  The optional `state` uses `none` for an absent or undefined
field. -/
structure AuthenticationRequest where
  sessionIdentity : SessionIdentity
  redirectUri : String
  state : Option String
  scope : String
deriving DecidableEq, Repr

/-- The `AuthenticationResponse` shape of the source.  `tokenType` is
the string `bearer` in every value the source constructs. -/
structure AuthenticationResponse where
  accessToken : String
  tokenType : String
  expiresIn : Int
  state : Option String
  scope : Option String
deriving DecidableEq, Repr

/-- Wire shape of an OAuth2 authorization request (snake case keys). -/
structure OAuth2AuthorizationRequest where
  response_type : String
  login_hint : String
  redirect_uri : String
  scope : Option String
  state : Option String
deriving DecidableEq, Repr

/-- Wire shape of an OAuth2 access token response (snake case keys).
The numeric `expires_in` is modelled as an integer. -/
structure OAuth2AccessTokenResponse where
  access_token : String
  token_type : Option String
  expires_in : Int
  state : Option String
  scope : Option String
deriving DecidableEq, Repr

/-- Tagged union of the two OAuth2 wire messages. -/
inductive OAuth2Message where
  | authorizationRequest (r : OAuth2AuthorizationRequest)
  | accessTokenResponse (r : OAuth2AccessTokenResponse)
deriving DecidableEq, Repr

/-- Tagged union of the two protocol-native messages. -/
inductive IcIdMessage where
  | request (r : AuthenticationRequest)
  | response (r : AuthenticationResponse)
deriving DecidableEq, Repr

/-- Embedding of `toOAuth2`: rename the response fields to snake case,
passing `state` and `scope` through unchanged. -/
def toOAuth2 (message : AuthenticationResponse) : OAuth2AccessTokenResponse :=
  { access_token := message.accessToken
    expires_in := message.expiresIn
    token_type := some message.tokenType
    state := message.state
    scope := message.scope }

/-- JavaScript `a || b` for an optional string `a`: `b` when `a` is
undefined or the empty string (both falsy). -/
def jsOrString (a : Option String) (b : String) : String :=
  match a with
  | some s => if s = "" then b else s
  | none => b

/-- Embedding of the `AuthenticationResponse` builder function of the
source (named `fromOAuth2Response` in the spec): inverse rename,
`token_type` defaulting to `bearer` when falsy or absent. -/
def fromOAuth2Response (input : OAuth2AccessTokenResponse) : AuthenticationResponse :=
  { accessToken := input.access_token
    tokenType := jsOrString input.token_type "bearer"
    expiresIn := input.expires_in
    state := input.state
    scope := input.scope }

/-- Embedding of the `AuthenticationRequest` builder function of the
source (named `fromOAuth2Request` in the spec): `redirect_uri` is
parsed as a URL and reserialized, failing with the malformed URL error
when unparseable; `scope` defaults to the empty string via the falsy
check of the source. -/
def fromOAuth2Request (input : OAuth2AuthorizationRequest) : Except Err AuthenticationRequest :=
  match parseURL input.redirect_uri with
  | none => .error .malformedUrl
  | some u =>
    .ok { sessionIdentity := ⟨input.login_hint⟩
          redirectUri := urlToString u
          state := input.state
          scope := jsOrString input.scope "" }

/-- Embedding of `toOauth` (source spelling): rename the request fields
to snake case with the fixed `token` response type. -/
def toOauth (idpRequest : AuthenticationRequest) : OAuth2AuthorizationRequest :=
  { response_type := "token"
    login_hint := idpRequest.sessionIdentity.hex
    redirect_uri := idpRequest.redirectUri
    scope := some idpRequest.scope
    state := idpRequest.state }

/-- Decimal digit value of a character. -/
def digitVal (c : Char) : Nat := c.toNat - '0'.toNat

/-- Numeric value of a list of decimal digit characters. -/
def natOfDigits (cs : List Char) : Nat :=
  cs.foldl (fun a c => 10 * a + digitVal c) 0

/-- Parse a decimal integer string (used for the wire `expires_in`
value), with an optional leading minus sign. -/
def parseDecIntString (s : String) : Option Int :=
  match s.data with
  | '-' :: rest =>
    if rest ≠ [] ∧ rest.all (fun c => c.isDigit) then some (-(natOfDigits rest : Int))
    else none
  | cs =>
    if cs ≠ [] ∧ cs.all (fun c => c.isDigit) then some ((natOfDigits cs : Int))
    else none

/-- Modelled from the spec: `oauth2.fromQueryString` of the oauth2
module (`src/protocol/oauth2.ts`, not included in the given sources).
Per the spec, presence of `access_token` classifies the parameters as
an access token response; otherwise presence of the required
authorization request fields `login_hint` and `redirect_uri` classifies
them as an authorization request; otherwise nothing is recognized.
The decimal `expires_in` wire string is parsed to its integer value. -/
def oauth2FromQueryString (searchParams : List (String × String)) : Option OAuth2Message :=
  match getParam searchParams "access_token" with
  | some accessToken =>
    some (.accessTokenResponse
      { access_token := accessToken
        token_type := getParam searchParams "token_type"
        expires_in := ((getParam searchParams "expires_in").bind parseDecIntString).getD 0
        state := getParam searchParams "state"
        scope := getParam searchParams "scope" })
  | none =>
    match getParam searchParams "login_hint", getParam searchParams "redirect_uri" with
    | some lh, some ru =>
      some (.authorizationRequest
        { response_type := (getParam searchParams "response_type").getD ""
          login_hint := lh
          redirect_uri := ru
          scope := getParam searchParams "scope"
          state := getParam searchParams "state" })
    | _, _ => none

/-- Embedding of `fromQueryString` of the source: delegate to the
generic oauth2 parser, return nothing when no message is recognized,
and narrow a recognized message to the protocol-native shape (the
request conversion can fail on a malformed redirect URI). -/
def fromQueryString (searchParams : List (String × String)) : Except Err (Option IcIdMessage) :=
  match oauth2FromQueryString searchParams with
  | none => .ok none
  | some (.accessTokenResponse r) => .ok (some (.response (fromOAuth2Response r)))
  | some (.authorizationRequest r) =>
    match fromOAuth2Request r with
    | .ok req => .ok (some (.request req))
    | .error e => .error e

/-- JavaScript string conversion of a possibly-undefined string value,
as performed by `URLSearchParams.set`: undefined becomes the literal
string `undefined`. -/
def jsStringOfOption : Option String → String
  | some s => s
  | none => "undefined"

/-- Object.entries of the wire authorization request object built by
`toOauth`, in the insertion order of the source object literal.  Every
key is present; an optional field with an undefined value appears with
`none`. -/
def oauthRequestEntries (o : OAuth2AuthorizationRequest) : List (String × Option String) :=
  [("response_type", some o.response_type),
   ("login_hint", some o.login_hint),
   ("redirect_uri", some o.redirect_uri),
   ("scope", o.scope),
   ("state", o.state)]

/-- Embedding of `createAuthenticationRequestUrl`: copy the identity
provider URL, then `searchParams.set` every entry of the wire request
object, stringifying the value (so an undefined value is written as the
literal string `undefined`, exactly as the source does). -/
def createAuthenticationRequestUrl (identityProviderUrl : Url)
    (authenticationRequest : AuthenticationRequest) : Url :=
  (oauthRequestEntries (toOauth authenticationRequest)).foldl
    (fun url kv => { url with query := setParam url.query kv.1 (jsStringOfOption kv.2) })
    identityProviderUrl

/-- Fuel-driven decimal digit accumulation for printing naturals. -/
def natDigitsAux : Nat → Nat → List Char → List Char
  | 0, _, acc => acc
  | fuel + 1, n, acc =>
    if n < 10 then hexDigitChar n :: acc
    else natDigitsAux fuel (n / 10) (hexDigitChar (n % 10) :: acc)

/-- Decimal digit characters of a natural number. -/
def natToChars (n : Nat) : List Char := natDigitsAux (n + 1) n []

/-- JavaScript string conversion of an integer. -/
def intToString (n : Int) : String :=
  if n < 0 then String.mk ('-' :: natToChars n.natAbs)
  else String.mk (natToChars n.natAbs)

/-- Object.entries of the wire access token response object built by
`toOAuth2`, in the insertion order of the source object literal, with
the numeric `expires_in` stringified the way `URLSearchParams.set`
stringifies a number. -/
def oauthResponseEntries (o : OAuth2AccessTokenResponse) : List (String × Option String) :=
  [("access_token", some o.access_token),
   ("expires_in", some (intToString o.expires_in)),
   ("token_type", o.token_type),
   ("state", o.state),
   ("scope", o.scope)]

/-- Embedding of `createResponseRedirectUrl`: parse the RP-supplied
redirect URI (the URL constructor throws on a malformed one), then for
every entry of the wire response object delete the parameter when the
value is undefined and set it otherwise. -/
def createResponseRedirectUrl (authResponse : AuthenticationResponse)
    (requestRedirectUri : String) : Except Err Url :=
  match parseURL requestRedirectUri with
  | none => .error .malformedUrl
  | some redirectUrl =>
    .ok ((oauthResponseEntries (toOAuth2 authResponse)).foldl
      (fun url kv =>
        match kv.2 with
        | none => { url with query := deleteParam url.query kv.1 }
        | some v => { url with query := setParam url.query kv.1 v })
      redirectUrl)

/-! Query parameter lemmas. -/

theorem getParam_setParam_same (q : List (String × String)) (k v : String) :
    getParam (setParam q k v) k = some v := by
  induction q with
  | nil => simp [setParam, getParam]
  | cons kv rest ih =>
    obtain ⟨k2, v2⟩ := kv
    by_cases hk : k2 = k
    · subst hk
      simp [setParam, getParam]
    · simp [setParam, getParam, hk, ih]

theorem getParam_deleteParam_other (q : List (String × String)) (k k2 : String)
    (h : k2 ≠ k) : getParam (deleteParam q k) k2 = getParam q k2 := by
  induction q with
  | nil => rfl
  | cons kv rest ih =>
    obtain ⟨k3, v3⟩ := kv
    show getParam (List.filter (fun kv => kv.1 ≠ k) ((k3, v3) :: rest)) k2
      = getParam ((k3, v3) :: rest) k2
    rw [List.filter_cons]
    by_cases hk : k3 = k
    · subst hk
      rw [if_neg (by simp)]
      have hne : ¬ (k3 = k2) := fun hcontra => h hcontra.symm
      rw [show getParam ((k3, v3) :: rest) k2 = getParam rest k2 from by
        simp only [getParam, if_neg hne]]
      exact ih
    · rw [if_pos (by simp [hk])]
      by_cases hk2 : k3 = k2
      · subst hk2
        simp [getParam]
      · simp only [getParam, if_neg hk2]
        exact ih

theorem getParam_deleteParam_same (q : List (String × String)) (k : String) :
    getParam (deleteParam q k) k = none := by
  induction q with
  | nil => rfl
  | cons kv rest ih =>
    obtain ⟨k3, v3⟩ := kv
    show getParam (List.filter (fun kv => kv.1 ≠ k) ((k3, v3) :: rest)) k = none
    rw [List.filter_cons]
    by_cases hk : k3 = k
    · subst hk
      rw [if_neg (by simp)]
      exact ih
    · rw [if_pos (by simp [hk])]
      simp only [getParam, if_neg hk]
      exact ih

theorem getParam_setParam_other (q : List (String × String)) (k v k2 : String)
    (h : k2 ≠ k) : getParam (setParam q k v) k2 = getParam q k2 := by
  induction q with
  | nil =>
    have hne : ¬ (k = k2) := fun hcontra => h hcontra.symm
    simp [setParam, getParam, hne]
  | cons kv rest ih =>
    obtain ⟨k3, v3⟩ := kv
    by_cases hk : k3 = k
    · subst hk
      simp only [setParam, if_pos rfl]
      have hne : ¬ (k3 = k2) := fun hcontra => h hcontra.symm
      simp only [getParam, if_neg hne]
      exact getParam_deleteParam_other rest k3 k2 h
    · simp only [setParam, if_neg hk]
      by_cases hk2 : k3 = k2
      · subst hk2
        simp [getParam]
      · simp only [getParam, if_neg hk2]
        exact ih

theorem filter_deleteParam (q : List (String × String)) (k : String)
    (p : String → Bool) (hp : p k = false) :
    (deleteParam q k).filter (fun kv => p kv.1) = q.filter (fun kv => p kv.1) := by
  induction q with
  | nil => rfl
  | cons kv rest ih =>
    obtain ⟨k3, v3⟩ := kv
    show List.filter (fun kv => p kv.1) (List.filter (fun kv => kv.1 ≠ k) ((k3, v3) :: rest))
      = List.filter (fun kv => p kv.1) ((k3, v3) :: rest)
    rw [List.filter_cons]
    by_cases hk : k3 = k
    · subst hk
      rw [if_neg (by simp)]
      rw [List.filter_cons]
      rw [show p ((k3, v3) : String × String).1 = false from hp]
      simp only [Bool.false_eq_true, if_false]
      exact ih
    · rw [if_pos (by simp [hk]), List.filter_cons, List.filter_cons]
      cases hpk3 : p ((k3, v3) : String × String).1
      · simp only [hpk3, Bool.false_eq_true, if_false]
        exact ih
      · simp only [hpk3, if_true]
        exact congrArg (List.cons (k3, v3)) ih

theorem filter_setParam (q : List (String × String)) (k v : String)
    (p : String → Bool) (hp : p k = false) :
    (setParam q k v).filter (fun kv => p kv.1) = q.filter (fun kv => p kv.1) := by
  induction q with
  | nil =>
    show List.filter (fun kv => p kv.1) [(k, v)] = []
    rw [List.filter_cons]
    rw [show p ((k, v) : String × String).1 = false from hp]
    simp only [Bool.false_eq_true, if_false]
    rfl
  | cons kv rest ih =>
    obtain ⟨k3, v3⟩ := kv
    by_cases hk : k3 = k
    · subst hk
      rw [show setParam ((k3, v3) :: rest) k3 v
        = (k3, v) :: List.filter (fun kv => kv.1 ≠ k3) rest from by simp [setParam]]
      rw [List.filter_cons, List.filter_cons]
      rw [show p ((k3, v) : String × String).1 = false from hp]
      simp only [Bool.false_eq_true, if_false]
      exact filter_deleteParam rest k3 p hp
    · simp only [setParam, if_neg hk]
      rw [List.filter_cons, List.filter_cons]
      cases hpk3 : p ((k3, v3) : String × String).1
      · simp only [hpk3, Bool.false_eq_true, if_false]
        exact ih
      · simp only [hpk3, if_true]
        exact congrArg (List.cons (k3, v3)) ih

/-! Claims about the URL builders and decoders. -/

/-- C7: converting an OAuth2 authorization request to a protocol
request fails with the malformed URL error exactly when `redirect_uri`
is not parseable as an absolute URL, and on success the stored
`redirectUri` is the parse-and-reserialize normalization of
`redirect_uri`, not the raw input text. -/
theorem request_decode_redirect_uri_normalized (input : OAuth2AuthorizationRequest) :
    (parseURL input.redirect_uri = none →
      fromOAuth2Request input = .error .malformedUrl) ∧
    (∀ u, parseURL input.redirect_uri = some u →
      ∃ req, fromOAuth2Request input = .ok req ∧ req.redirectUri = urlToString u) := by
  constructor
  · intro h
    unfold fromOAuth2Request
    rw [h]
  · intro u h
    unfold fromOAuth2Request
    rw [h]
    exact ⟨_, rfl, rfl⟩

/-- Witness for C7: a request with an unparseable redirect URI fails,
and one with a parseable redirect URI lacking a path stores the
normalized serialization (with the root path appended), which differs
from the raw input text. -/
theorem request_decode_redirect_uri_normalized_witness :
    (fromOAuth2Request ⟨"token", "deadbeef", "not a url", none, none⟩
      = .error .malformedUrl) ∧
    (∃ req, fromOAuth2Request ⟨"token", "deadbeef", "https://rp.example", none, none⟩
      = .ok req ∧ req.redirectUri = urlToString ⟨"https", "rp.example", "/", []⟩) :=
  ⟨(request_decode_redirect_uri_normalized ⟨"token", "deadbeef", "not a url", none, none⟩).1
      (by rfl),
   (request_decode_redirect_uri_normalized ⟨"token", "deadbeef", "https://rp.example", none, none⟩).2
      ⟨"https", "rp.example", "/", []⟩ (by rfl)⟩

/-- C8: the round trip of an AuthenticationRequest through
`toOauth` and the request decoder preserves the session identity hex,
scope and state, replacing `redirectUri` by its URL normalization; the
round trip is exact when `redirectUri` is already normalized. -/
theorem request_roundtrip (r : AuthenticationRequest) (u : Url)
    (h : parseURL r.redirectUri = some u) :
    fromOAuth2Request (toOauth r) = .ok { r with redirectUri := urlToString u } ∧
    (r.redirectUri = urlToString u → fromOAuth2Request (toOauth r) = .ok r) := by
  have h1 : fromOAuth2Request (toOauth r) = .ok { r with redirectUri := urlToString u } := by
    have hru : (toOauth r).redirect_uri = r.redirectUri := rfl
    unfold fromOAuth2Request
    rw [hru, h]
    have hscope : jsOrString (toOauth r).scope "" = r.scope := by
      show (if r.scope = "" then "" else r.scope : String) = r.scope
      split_ifs with hs
      · exact hs.symm
      · rfl
    rw [hscope]
    rfl
  refine ⟨h1, fun hnorm => ?_⟩
  rw [h1, ← hnorm]

/-- Witness for C8 at a request whose redirect URI is already a
normalized absolute URL: the round trip is exact. -/
theorem request_roundtrip_witness :
    fromOAuth2Request (toOauth ⟨⟨"deadbeef"⟩, "https://rp.example/cb", some "xyz", "aaaa bbbb"⟩)
      = .ok ⟨⟨"deadbeef"⟩, "https://rp.example/cb", some "xyz", "aaaa bbbb"⟩ :=
  (request_roundtrip ⟨⟨"deadbeef"⟩, "https://rp.example/cb", some "xyz", "aaaa bbbb"⟩
    ⟨"https", "rp.example", "/cb", []⟩ (by rfl)).2 (by rfl)

/-- C4 (evaluating the code at the failing input): building the
authentication request URL for a request whose optional `state` is
absent writes a `state` query parameter holding the literal string
`undefined`, because the builder stringifies every entry instead of
skipping absent ones. -/
theorem request_url_writes_undefined_state :
    getParam (createAuthenticationRequestUrl
      ⟨"https", "idp.example", "/", []⟩
      ⟨⟨"deadbeef"⟩, "https://rp.example/cb", none, ""⟩).query "state"
      = some "undefined" := by rfl

/-- C3: presence of `access_token` classifies a query as an
authentication response even when request fields such as `login_hint`
are also present (removing every `login_hint` parameter does not change
the result, so `login_hint` is silently ignored); otherwise presence of
the required `login_hint` and `redirect_uri` fields classifies it as an
authentication request; parameters with neither shape, in particular
the empty query, yield nothing. -/
theorem query_classification (params : List (String × String)) :
    (∀ v, getParam params "access_token" = some v →
      (∃ r, fromQueryString params = .ok (some (.response r)) ∧ r.accessToken = v) ∧
      fromQueryString params = fromQueryString (deleteParam params "login_hint")) ∧
    (getParam params "access_token" = none →
      ∀ lh ru u, getParam params "login_hint" = some lh →
        getParam params "redirect_uri" = some ru → parseURL ru = some u →
        ∃ r, fromQueryString params = .ok (some (.request r)) ∧
          r.sessionIdentity.hex = lh ∧ r.redirectUri = urlToString u) ∧
    (getParam params "access_token" = none → getParam params "login_hint" = none →
      fromQueryString params = .ok none) ∧
    (getParam params "access_token" = none → getParam params "redirect_uri" = none →
      fromQueryString params = .ok none) := by
  refine ⟨?_, ?_, ?_, ?_⟩
  · intro v hv
    constructor
    · have hfull : fromQueryString params
          = .ok (some (.response ⟨v, jsOrString (getParam params "token_type") "bearer",
              ((getParam params "expires_in").bind parseDecIntString).getD 0,
              getParam params "state", getParam params "scope"⟩)) := by
        unfold fromQueryString oauth2FromQueryString
        rw [hv]
        rfl
      exact ⟨_, hfull, rfl⟩
    · have e1 : getParam (deleteParam params "login_hint") "access_token" = some v := by
        rw [getParam_deleteParam_other _ _ _ (by decide)]
        exact hv
      unfold fromQueryString oauth2FromQueryString
      rw [hv, e1,
        getParam_deleteParam_other params "login_hint" "token_type" (by decide),
        getParam_deleteParam_other params "login_hint" "expires_in" (by decide),
        getParam_deleteParam_other params "login_hint" "state" (by decide),
        getParam_deleteParam_other params "login_hint" "scope" (by decide)]
  · intro hat lh ru u hlh hru hu
    have hmsg : oauth2FromQueryString params
        = some (.authorizationRequest
            ⟨(getParam params "response_type").getD "", lh, ru,
             getParam params "scope", getParam params "state"⟩) := by
      unfold oauth2FromQueryString
      rw [hat, hlh, hru]
    have hreq : fromOAuth2Request
        ⟨(getParam params "response_type").getD "", lh, ru,
         getParam params "scope", getParam params "state"⟩
        = .ok ⟨⟨lh⟩, urlToString u, getParam params "state",
               jsOrString (getParam params "scope") ""⟩ := by
      unfold fromOAuth2Request
      rw [show (⟨(getParam params "response_type").getD "", lh, ru,
        getParam params "scope", getParam params "state"⟩
          : OAuth2AuthorizationRequest).redirect_uri = ru from rfl, hu]
    have hfull : fromQueryString params
        = .ok (some (.request ⟨⟨lh⟩, urlToString u, getParam params "state",
            jsOrString (getParam params "scope") ""⟩)) := by
      simp only [fromQueryString, hmsg, hreq]
    exact ⟨_, hfull, rfl, rfl⟩
  · intro hat hlh
    unfold fromQueryString oauth2FromQueryString
    rw [hat, hlh]
  · intro hat hru
    unfold fromQueryString oauth2FromQueryString
    rw [hat, hru]
    cases getParam params "login_hint" <;> rfl

/-- Witness for C3: a query with `access_token` and `login_hint`
classifies as a response with the `login_hint` ignored; a query with
`login_hint` and `redirect_uri` classifies as a request; the empty
query yields nothing. -/
theorem query_classification_witness :
    (∃ r, fromQueryString [("access_token", "abc"), ("login_hint", "dead")]
      = .ok (some (.response r)) ∧ r.accessToken = "abc") ∧
    fromQueryString [("access_token", "abc"), ("login_hint", "dead")]
      = fromQueryString
          (deleteParam [("access_token", "abc"), ("login_hint", "dead")] "login_hint") ∧
    (∃ r, fromQueryString
        [("login_hint", "deadbeef"), ("redirect_uri", "https://rp.example/cb"),
         ("state", "xyz")]
      = .ok (some (.request r)) ∧ r.sessionIdentity.hex = "deadbeef" ∧
        r.redirectUri = urlToString ⟨"https", "rp.example", "/cb", []⟩) ∧
    fromQueryString ([] : List (String × String)) = .ok none := by
  refine ⟨?_, ?_, ?_, ?_⟩
  · exact ((query_classification [("access_token", "abc"), ("login_hint", "dead")]).1
      "abc" (by rfl)).1
  · exact ((query_classification [("access_token", "abc"), ("login_hint", "dead")]).1
      "abc" (by rfl)).2
  · exact (query_classification _).2.1 (by rfl) "deadbeef" "https://rp.example/cb"
      ⟨"https", "rp.example", "/cb", []⟩ (by rfl) (by rfl) (by rfl)
  · exact (query_classification _).2.2.1 (by rfl) (by rfl)

/-- The five wire keys written or cleared by the response redirect
builder. -/
def responseParamKeys : List String :=
  ["access_token", "expires_in", "token_type", "state", "scope"]

/-- Set a query parameter when the value is present, remove it when it
is absent: the per-entry behavior of the response redirect builder. -/
def setOrDelete (q : List (String × String)) (k : String) : Option String → List (String × String)
  | none => deleteParam q k
  | some v => setParam q k v

theorem getParam_setOrDelete_same (q : List (String × String)) (k : String)
    (o : Option String) : getParam (setOrDelete q k o) k = o := by
  cases o with
  | none => exact getParam_deleteParam_same q k
  | some v => exact getParam_setParam_same q k v

theorem getParam_setOrDelete_other (q : List (String × String)) (k : String)
    (o : Option String) (k2 : String) (h : k2 ≠ k) :
    getParam (setOrDelete q k o) k2 = getParam q k2 := by
  cases o with
  | none => exact getParam_deleteParam_other q k k2 h
  | some v => exact getParam_setParam_other q k v k2 h

theorem filter_setOrDelete (q : List (String × String)) (k : String)
    (o : Option String) (p : String → Bool) (hp : p k = false) :
    (setOrDelete q k o).filter (fun kv => p kv.1) = q.filter (fun kv => p kv.1) := by
  cases o with
  | none => exact filter_deleteParam q k p hp
  | some v => exact filter_setParam q k v p hp

/-- C6: the response redirect URL keeps the scheme, host, path and
every non-wire query parameter of the RP-supplied redirect URI, sets a
parameter for every present field of the OAuth2-converted response, and
removes the parameter of every absent field. -/
theorem response_redirect_url_sets_present_removes_absent
    (resp : AuthenticationResponse) (uri : String) (u : Url)
    (h : parseURL uri = some u) :
    ∃ q, createResponseRedirectUrl resp uri = .ok ⟨u.scheme, u.host, u.path, q⟩ ∧
      q.filter (fun kv => !(responseParamKeys.contains kv.1))
        = u.query.filter (fun kv => !(responseParamKeys.contains kv.1)) ∧
      getParam q "access_token" = some resp.accessToken ∧
      getParam q "expires_in" = some (intToString resp.expiresIn) ∧
      getParam q "token_type" = some resp.tokenType ∧
      getParam q "state" = resp.state ∧
      getParam q "scope" = resp.scope := by
  obtain ⟨atk, tt, ei, st, sc⟩ := resp
  have hout : createResponseRedirectUrl ⟨atk, tt, ei, st, sc⟩ uri
      = .ok ⟨u.scheme, u.host, u.path,
          setOrDelete (setOrDelete (setParam (setParam (setParam u.query
            "access_token" atk) "expires_in" (intToString ei)) "token_type" tt)
            "state" st) "scope" sc⟩ := by
    unfold createResponseRedirectUrl
    rw [h]
    cases st <;> cases sc <;> rfl
  refine ⟨_, hout, ?_, ?_, ?_, ?_, ?_, ?_⟩
  · rw [filter_setOrDelete _ "scope" sc (fun s => !(responseParamKeys.contains s)) (by rfl),
      filter_setOrDelete _ "state" st (fun s => !(responseParamKeys.contains s)) (by rfl),
      filter_setParam _ "token_type" tt (fun s => !(responseParamKeys.contains s)) (by rfl),
      filter_setParam _ "expires_in" (intToString ei)
        (fun s => !(responseParamKeys.contains s)) (by rfl),
      filter_setParam _ "access_token" atk (fun s => !(responseParamKeys.contains s)) (by rfl)]
  · rw [getParam_setOrDelete_other _ _ _ _ (by decide),
      getParam_setOrDelete_other _ _ _ _ (by decide),
      getParam_setParam_other _ _ _ _ (by decide),
      getParam_setParam_other _ _ _ _ (by decide),
      getParam_setParam_same]
  · rw [getParam_setOrDelete_other _ _ _ _ (by decide),
      getParam_setOrDelete_other _ _ _ _ (by decide),
      getParam_setParam_other _ _ _ _ (by decide),
      getParam_setParam_same]
  · rw [getParam_setOrDelete_other _ _ _ _ (by decide),
      getParam_setOrDelete_other _ _ _ _ (by decide),
      getParam_setParam_same]
  · rw [getParam_setOrDelete_other _ _ _ _ (by decide),
      getParam_setOrDelete_same]
  · rw [getParam_setOrDelete_same]

/-! UTF-8 byte codec.  The source encodes bearer token text with
`TextEncoder` and decodes with `TextDecoder` (non-fatal mode, replacing
malformed sequences with U+FFFD). -/

/-- UTF-8 bytes of a single code point. -/
def utf8EncodeCharNat (n : Nat) : List Nat :=
  if n < 0x80 then [n]
  else if n < 0x800 then [0xC0 + n / 64, 0x80 + n % 64]
  else if n < 0x10000 then
    [0xE0 + n / 4096, 0x80 + (n / 64) % 64, 0x80 + n % 64]
  else
    [0xF0 + n / 262144, 0x80 + (n / 4096) % 64, 0x80 + (n / 64) % 64, 0x80 + n % 64]

/-- Modelled from the spec: the `TextEncoder` UTF-8 encoding used by
`createBearerToken`. -/
def utf8Encode (s : String) : List Nat :=
  (s.data.map (fun c => utf8EncodeCharNat c.toNat)).flatten

/-- The Unicode replacement character U+FFFD. -/
def replChar : Char := Char.ofNat 0xFFFD

/-- Character of a code point, with the replacement character for
values that are not valid scalar values (surrogates, out of range). -/
def charOfCodepoint (n : Nat) : Char :=
  if _h : n.isValidChar then Char.ofNat n else replChar

/-- Continuation byte test. -/
def isCont (b : Nat) : Bool := 0x80 ≤ b ∧ b < 0xC0

/-! Modelled from the spec: the non-fatal `TextDecoder` UTF-8 decoding
used by `parseBearerToken`; malformed sequences produce the
replacement character and never fail (the decoder consumes the examined
block when it is malformed). -/
mutual
/-- Decode UTF-8 bytes to characters, one code point per step. -/
def utf8DecodeLoop : List Nat → List Char
  | [] => []
  | b0 :: rest =>
    if b0 < 0x80 then charOfCodepoint b0 :: utf8DecodeLoop rest
    else if b0 < 0xC0 then replChar :: utf8DecodeLoop rest
    else if b0 < 0xE0 then utf8Decode2 b0 rest
    else if b0 < 0xF0 then utf8Decode3 b0 rest
    else if b0 < 0xF8 then utf8Decode4 b0 rest
    else replChar :: utf8DecodeLoop rest
/-- Decode a two-byte sequence. -/
def utf8Decode2 : Nat → List Nat → List Char
  | _, [] => [replChar]
  | b0, b1 :: r2 =>
    if isCont b1 then
      charOfCodepoint ((b0 - 0xC0) * 64 + (b1 - 0x80)) :: utf8DecodeLoop r2
    else replChar :: utf8DecodeLoop r2
/-- Decode a three-byte sequence. -/
def utf8Decode3 : Nat → List Nat → List Char
  | _, [] => [replChar]
  | _, [_] => [replChar]
  | b0, b1 :: b2 :: r3 =>
    if isCont b1 ∧ isCont b2 then
      charOfCodepoint ((b0 - 0xE0) * 4096 + (b1 - 0x80) * 64 + (b2 - 0x80))
        :: utf8DecodeLoop r3
    else replChar :: utf8DecodeLoop r3
/-- Decode a four-byte sequence. -/
def utf8Decode4 : Nat → List Nat → List Char
  | _, [] => [replChar]
  | _, [_] => [replChar]
  | _, [_, _] => [replChar]
  | b0, b1 :: b2 :: b3 :: r4 =>
    if isCont b1 ∧ isCont b2 ∧ isCont b3 then
      charOfCodepoint ((b0 - 0xF0) * 262144 + (b1 - 0x80) * 4096
        + (b2 - 0x80) * 64 + (b3 - 0x80)) :: utf8DecodeLoop r4
    else replChar :: utf8DecodeLoop r4
end

/-- Embedding of `decodeUtf8` of the source. -/
def decodeUtf8 (bytes : List Nat) : String :=
  String.mk (utf8DecodeLoop bytes)

theorem charOfCodepoint_toNat (c : Char) : charOfCodepoint c.toNat = c := by
  unfold charOfCodepoint
  rw [dif_pos (show Nat.isValidChar c.toNat from c.valid)]
  exact Char.ofNat_toNat c

theorem utf8DecodeLoop_encodeChar (c : Char) (rest : List Nat) :
    utf8DecodeLoop (utf8EncodeCharNat c.toNat ++ rest) = c :: utf8DecodeLoop rest := by
  have hval : c.toNat.isValidChar := c.valid
  have hlt : c.toNat < 0x110000 := by
    rcases hval with h | ⟨_, h⟩ <;> omega
  set n := c.toNat with hn
  by_cases h1 : n < 0x80
  · rw [show utf8EncodeCharNat n = [n] from by rw [utf8EncodeCharNat, if_pos h1]]
    show utf8DecodeLoop (n :: rest) = c :: utf8DecodeLoop rest
    rw [utf8DecodeLoop, if_pos h1, hn, charOfCodepoint_toNat]
  · by_cases h2 : n < 0x800
    · rw [show utf8EncodeCharNat n = [0xC0 + n / 64, 0x80 + n % 64] from by
        rw [utf8EncodeCharNat, if_neg h1, if_pos h2]]
      show utf8DecodeLoop ((0xC0 + n / 64) :: (0x80 + n % 64) :: rest)
        = c :: utf8DecodeLoop rest
      rw [utf8DecodeLoop, if_neg (by omega), if_neg (by omega), if_pos (by omega),
        utf8Decode2]
      have hcont : isCont (0x80 + n % 64) = true := by
        unfold isCont
        simp only [decide_eq_true_eq]
        omega
      rw [if_pos hcont]
      rw [show (0xC0 + n / 64 - 0xC0) * 64 + (0x80 + n % 64 - 0x80) = n by omega]
      rw [hn, charOfCodepoint_toNat]
    · by_cases h3 : n < 0x10000
      · rw [show utf8EncodeCharNat n
            = [0xE0 + n / 4096, 0x80 + (n / 64) % 64, 0x80 + n % 64] from by
          rw [utf8EncodeCharNat, if_neg h1, if_neg h2, if_pos h3]]
        show utf8DecodeLoop ((0xE0 + n / 4096) :: (0x80 + (n / 64) % 64)
          :: (0x80 + n % 64) :: rest) = c :: utf8DecodeLoop rest
        rw [utf8DecodeLoop, if_neg (by omega), if_neg (by omega), if_neg (by omega),
          if_pos (by omega), utf8Decode3]
        have hcont : (isCont (0x80 + (n / 64) % 64) = true ∧ isCont (0x80 + n % 64) = true) := by
          unfold isCont
          constructor <;> simp only [decide_eq_true_eq] <;> omega
        rw [if_pos hcont]
        rw [show (0xE0 + n / 4096 - 0xE0) * 4096 + (0x80 + (n / 64) % 64 - 0x80) * 64
          + (0x80 + n % 64 - 0x80) = n by omega]
        rw [hn, charOfCodepoint_toNat]
      · rw [show utf8EncodeCharNat n
            = [0xF0 + n / 262144, 0x80 + (n / 4096) % 64,
               0x80 + (n / 64) % 64, 0x80 + n % 64] from by
          rw [utf8EncodeCharNat, if_neg h1, if_neg h2, if_neg h3]]
        show utf8DecodeLoop ((0xF0 + n / 262144) :: (0x80 + (n / 4096) % 64)
          :: (0x80 + (n / 64) % 64) :: (0x80 + n % 64) :: rest)
          = c :: utf8DecodeLoop rest
        rw [utf8DecodeLoop, if_neg (by omega), if_neg (by omega), if_neg (by omega),
          if_neg (by omega), if_pos (by omega), utf8Decode4]
        have hcont : (isCont (0x80 + (n / 4096) % 64) = true
            ∧ isCont (0x80 + (n / 64) % 64) = true ∧ isCont (0x80 + n % 64) = true) := by
          unfold isCont
          refine ⟨?_, ?_, ?_⟩ <;> simp only [decide_eq_true_eq] <;> omega
        rw [if_pos hcont]
        rw [show (0xF0 + n / 262144 - 0xF0) * 262144 + (0x80 + (n / 4096) % 64 - 0x80) * 4096
          + (0x80 + (n / 64) % 64 - 0x80) * 64 + (0x80 + n % 64 - 0x80) = n by omega]
        rw [hn, charOfCodepoint_toNat]

theorem utf8Decode_encode (s : String) : decodeUtf8 (utf8Encode s) = s := by
  have hloop : ∀ cs : List Char,
      utf8DecodeLoop ((cs.map (fun c => utf8EncodeCharNat c.toNat)).flatten) = cs := by
    intro cs
    induction cs with
    | nil => rfl
    | cons c rest ih =>
      simp only [List.map_cons, List.flatten_cons]
      rw [utf8DecodeLoop_encodeChar, ih]
  show String.mk (utf8DecodeLoop ((s.data.map (fun c => utf8EncodeCharNat c.toNat)).flatten))
    = s
  rw [hloop]

theorem utf8EncodeCharNat_lt (n : Nat) (h : n < 0x110000) :
    ∀ b ∈ utf8EncodeCharNat n, b < 256 := by
  intro b hb
  unfold utf8EncodeCharNat at hb
  split_ifs at hb <;> simp only [List.mem_cons, List.mem_singleton] at hb <;>
    rcases hb with h | h | h | h | h <;> first | omega | cases h

theorem utf8Encode_lt (s : String) : ∀ b ∈ utf8Encode s, b < 256 := by
  intro b hb
  unfold utf8Encode at hb
  rcases List.mem_flatten.mp hb with ⟨l, hl, hbl⟩
  rcases List.mem_map.mp hl with ⟨c, _, hc⟩
  have hvc : c.toNat.isValidChar := c.valid
  have hval : c.toNat < 0x110000 := by
    rcases hvc with h | ⟨_, h⟩ <;> omega
  exact utf8EncodeCharNat_lt c.toNat hval b (hc ▸ hbl)

/-! JSON model.  `JSON.parse` and `JSON.stringify` of the platform are
modelled over an inductive value type; numbers are modelled as
integers (the protocol never carries fractional JSON numbers), and the
parser accepts the whitespace-free texts that `JSON.stringify`
produces. -/

mutual
/-- JSON values. -/
inductive Json where
  | null
  | bool (b : Bool)
  | num (n : Int)
  | str (s : String)
  | arr (elems : JsonArr)
  | obj (members : JsonObj)
deriving Repr
/-- JSON array element lists. -/
inductive JsonArr where
  | nil
  | cons (hd : Json) (tl : JsonArr)
deriving Repr
/-- JSON object member lists, in textual order. -/
inductive JsonObj where
  | nil
  | cons (key : String) (value : Json) (tl : JsonObj)
deriving Repr
end

/-- JSON escape of one character, as `JSON.stringify` writes it. -/
def escapeChar (c : Char) : List Char :=
  if c = '"' then ['\\', '"']
  else if c = '\\' then ['\\', '\\']
  else if c = '\n' then ['\\', 'n']
  else if c = '\t' then ['\\', 't']
  else if c = '\r' then ['\\', 'r']
  else if c = Char.ofNat 8 then ['\\', 'b']
  else if c = Char.ofNat 12 then ['\\', 'f']
  else if c.toNat < 0x20 then
    let hi := hexDigitChar (c.toNat / 16)
    '\\' :: 'u' :: '0' :: '0' :: hi :: [hexDigitChar (c.toNat % 16)]
  else [c]

/-- Body of a JSON string literal: every character escaped as needed. -/
def printStringBody : List Char → List Char
  | [] => []
  | c :: rest => escapeChar c ++ printStringBody rest

/-- A JSON string literal with its quotes. -/
def printString (s : String) : List Char :=
  '"' :: printStringBody s.data ++ ['"']

/-- Decimal digit characters of an integer, with a leading minus sign
when negative. -/
def intToChars (n : Int) : List Char :=
  if n < 0 then '-' :: natToChars n.natAbs else natToChars n.natAbs

mutual
/-- Print a JSON value the way `JSON.stringify` does (no whitespace). -/
def printJson : Json → List Char
  | .null => "null".data
  | .bool true => "true".data
  | .bool false => "false".data
  | .num n => intToChars n
  | .str s => printString s
  | .arr xs => '[' :: printArrBody xs ++ [']']
  | .obj ms => '{' :: printObjBody ms ++ ['}']
/-- Print array elements, comma separated. -/
def printArrBody : JsonArr → List Char
  | .nil => []
  | .cons x t =>
    printJson x ++ (match t with | .nil => ([] : List Char) | _ => [',']) ++ printArrBody t
/-- Print object members, comma separated, each as key, colon, value. -/
def printObjBody : JsonObj → List Char
  | .nil => []
  | .cons k v t =>
    printString k ++ ':' :: printJson v
      ++ (match t with | .nil => ([] : List Char) | _ => [',']) ++ printObjBody t
end

/-- Model of `JSON.stringify` restricted to the modelled values. -/
def jsonStringify (j : Json) : String := String.mk (printJson j)

/-- Value of four hex digit characters, for the `u` escape. -/
def parseHex4 (h1 h2 h3 h4 : Char) : Option Nat :=
  match hexDigitVal h1, hexDigitVal h2, hexDigitVal h3, hexDigitVal h4 with
  | some a, some b, some c, some d => some (4096 * a + 256 * b + 16 * c + d)
  | _, _, _, _ => none

/-- Unescape a single-character JSON escape. -/
def unescape (e : Char) : Option Char :=
  if e = '"' then some '"'
  else if e = '\\' then some '\\'
  else if e = '/' then some '/'
  else if e = 'n' then some '\n'
  else if e = 't' then some '\t'
  else if e = 'r' then some '\r'
  else if e = 'b' then some (Char.ofNat 8)
  else if e = 'f' then some (Char.ofNat 12)
  else none

/-! Parse the body of a JSON string literal up to and including the
closing quote, returning the content and the remaining input. -/
mutual
/-- Parse string characters until the closing quote. -/
def parseStringBody : List Char → Except Err (List Char × List Char)
  | [] => .error .jsonError
  | c :: rest =>
    if c = '"' then .ok ([], rest)
    else if c = '\\' then parseEscape rest
    else (parseStringBody rest).map (fun pr => (c :: pr.1, pr.2))
/-- Parse what follows a backslash. -/
def parseEscape : List Char → Except Err (List Char × List Char)
  | [] => .error .jsonError
  | e :: r2 =>
    if e = 'u' then parseUEscape r2
    else
      match unescape e with
      | some ch => (parseStringBody r2).map (fun pr => (ch :: pr.1, pr.2))
      | none => .error .jsonError
/-- Parse the four hex digits of a `u` escape. -/
def parseUEscape : List Char → Except Err (List Char × List Char)
  | h1 :: h2 :: h3 :: h4 :: r3 =>
    match parseHex4 h1 h2 h3 h4 with
    | some n => (parseStringBody r3).map (fun pr => (charOfCodepoint n :: pr.1, pr.2))
    | none => .error .jsonError
  | _ => .error .jsonError
end

/-- Parse a nonempty run of decimal digits into its value and the
remaining input. -/
def parseNatChars (cs : List Char) : Except Err (Nat × List Char) :=
  let ds := cs.takeWhile (fun c => c.isDigit)
  if ds = [] then .error .jsonError
  else .ok (natOfDigits ds, cs.dropWhile (fun c => c.isDigit))

/-- Parse the elements of a JSON array after the opening bracket, the
element parser being supplied; the fuel bounds the number of
elements. -/
def parseArrRest (pv : List Char → Except Err (Json × List Char)) :
    Nat → List Char → Except Err (JsonArr × List Char)
  | 0, _ => .error .jsonError
  | fuel + 1, cs =>
    match cs with
    | [] => .error .jsonError
    | c :: rest =>
      if c = ']' then .ok (.nil, rest)
      else
        match pv (c :: rest) with
        | .error e => .error e
        | .ok (v, r2) =>
          match r2 with
          | ',' :: r3 => (parseArrRest pv fuel r3).map (fun pr => (.cons v pr.1, pr.2))
          | ']' :: r3 => .ok (.cons v .nil, r3)
          | _ => .error .jsonError

/-- Parse the members of a JSON object after the opening brace, the
value parser being supplied; the fuel bounds the number of members. -/
def parseObjRest (pv : List Char → Except Err (Json × List Char)) :
    Nat → List Char → Except Err (JsonObj × List Char)
  | 0, _ => .error .jsonError
  | fuel + 1, cs =>
    match cs with
    | [] => .error .jsonError
    | c :: rest =>
      if c = '}' then .ok (.nil, rest)
      else if c = '"' then
        match parseStringBody rest with
        | .error e => .error e
        | .ok (kcs, r2) =>
          match r2 with
          | ':' :: r3 =>
            match pv r3 with
            | .error e => .error e
            | .ok (v, r4) =>
              match r4 with
              | ',' :: r5 =>
                (parseObjRest pv fuel r5).map (fun pr => (.cons (String.mk kcs) v pr.1, pr.2))
              | '}' :: r5 => .ok (.cons (String.mk kcs) v .nil, r5)
              | _ => .error .jsonError
          | _ => .error .jsonError
      else .error .jsonError

/-- Expect the tail of the `null` literal. -/
def parseNullLit : List Char → Except Err (Json × List Char)
  | 'u' :: 'l' :: 'l' :: r => .ok (.null, r)
  | _ => .error .jsonError

/-- Expect the tail of the `true` literal. -/
def parseTrueLit : List Char → Except Err (Json × List Char)
  | 'r' :: 'u' :: 'e' :: r => .ok (.bool true, r)
  | _ => .error .jsonError

/-- Expect the tail of the `false` literal. -/
def parseFalseLit : List Char → Except Err (Json × List Char)
  | 'a' :: 'l' :: 's' :: 'e' :: r => .ok (.bool false, r)
  | _ => .error .jsonError

/-- Parse one JSON value; the fuel bounds the nesting depth and the
collection sizes. -/
def parseValue : Nat → List Char → Except Err (Json × List Char)
  | 0, _ => .error .jsonError
  | fuel + 1, cs =>
    match cs with
    | [] => .error .jsonError
    | c :: rest =>
      if c = '-' then (parseNatChars rest).map (fun pr => (.num (-(pr.1 : Int)), pr.2))
      else if c.isDigit then
        (parseNatChars (c :: rest)).map (fun pr => (.num ((pr.1 : Nat) : Int), pr.2))
      else if c = '"' then (parseStringBody rest).map (fun pr => (.str (String.mk pr.1), pr.2))
      else if c = '[' then
        (parseArrRest (parseValue fuel) fuel rest).map (fun pr => (.arr pr.1, pr.2))
      else if c = '{' then
        (parseObjRest (parseValue fuel) fuel rest).map (fun pr => (.obj pr.1, pr.2))
      else if c = 'n' then parseNullLit rest
      else if c = 't' then parseTrueLit rest
      else if c = 'f' then parseFalseLit rest
      else .error .jsonError

/-- Model of `JSON.parse` restricted to the whitespace-free texts that
`JSON.stringify` produces: parse one value consuming the whole text. -/
def jsonParse (s : String) : Except Err Json :=
  match parseValue (s.data.length + 1) s.data with
  | .ok (j, []) => .ok j
  | .ok (_, _ :: _) => .error .jsonError
  | .error e => .error e

/-! Round trip of the JSON codec on printed values. -/

/-- Decimal digits of a natural number, recursively (the fuel-free
companion of `natToChars`, used in proofs). -/
def digitsOfSpec (n : Nat) : List Char :=
  if _h : n < 10 then [hexDigitChar n]
  else digitsOfSpec (n / 10) ++ [hexDigitChar (n % 10)]
termination_by n
decreasing_by omega

theorem natDigitsAux_eq :
    ∀ fuel, ∀ n acc, n ≤ fuel → natDigitsAux (fuel + 1) n acc = digitsOfSpec n ++ acc := by
  intro fuel
  induction fuel using Nat.strong_induction_on with
  | _ fuel ih =>
    intro n acc hn
    by_cases h10 : n < 10
    · rw [show natDigitsAux (fuel + 1) n acc = hexDigitChar n :: acc from by
        rw [natDigitsAux, if_pos h10]]
      rw [digitsOfSpec, dif_pos h10]
      rfl
    · rw [show natDigitsAux (fuel + 1) n acc
          = natDigitsAux fuel (n / 10) (hexDigitChar (n % 10) :: acc) from by
        rw [natDigitsAux, if_neg h10]]
      have hfuel : 1 ≤ fuel := by omega
      obtain ⟨f, rfl⟩ : ∃ f, fuel = f + 1 := ⟨fuel - 1, by omega⟩
      rw [ih f (by omega) (n / 10) _ (by omega)]
      conv_rhs => rw [digitsOfSpec]
      rw [dif_neg h10]
      simp

theorem natToChars_eq (n : Nat) : natToChars n = digitsOfSpec n := by
  unfold natToChars
  rw [natDigitsAux_eq n n [] le_rfl, List.append_nil]

theorem digitVal_hexDigitChar (k : Nat) (hk : k < 10) : digitVal (hexDigitChar k) = k := by
  interval_cases k <;> rfl

theorem isDigit_hexDigitChar (k : Nat) (hk : k < 10) : (hexDigitChar k).isDigit = true := by
  interval_cases k <;> rfl

theorem digitsOfSpec_all_digits (n : Nat) :
    ∀ c ∈ digitsOfSpec n, c.isDigit = true := by
  induction n using Nat.strong_induction_on with
  | _ n ih =>
    intro c hc
    by_cases h10 : n < 10
    · rw [digitsOfSpec, dif_pos h10, List.mem_singleton] at hc
      subst hc
      exact isDigit_hexDigitChar n h10
    · rw [digitsOfSpec, dif_neg h10] at hc
      rcases List.mem_append.mp hc with h | h
      · exact ih (n / 10) (by omega) c h
      · rw [List.mem_singleton] at h
        subst h
        exact isDigit_hexDigitChar (n % 10) (by omega)

theorem digitsOfSpec_ne_nil (n : Nat) : digitsOfSpec n ≠ [] := by
  by_cases h10 : n < 10
  · rw [digitsOfSpec, dif_pos h10]
    simp
  · rw [digitsOfSpec, dif_neg h10]
    simp

theorem natOfDigits_append_one (xs : List Char) (d : Char) :
    natOfDigits (xs ++ [d]) = 10 * natOfDigits xs + digitVal d := by
  unfold natOfDigits
  rw [List.foldl_append]
  rfl

theorem natOfDigits_digitsOfSpec (n : Nat) : natOfDigits (digitsOfSpec n) = n := by
  induction n using Nat.strong_induction_on with
  | _ n ih =>
    by_cases h10 : n < 10
    · rw [digitsOfSpec, dif_pos h10]
      show 10 * 0 + digitVal (hexDigitChar n) = n
      rw [digitVal_hexDigitChar n h10]
      omega
    · rw [digitsOfSpec, dif_neg h10]
      rw [natOfDigits_append_one, ih (n / 10) (by omega),
        digitVal_hexDigitChar (n % 10) (by omega)]
      omega

/-- Boundary condition after a printed value: the remaining input does
not begin with a digit (so number parsing does not overrun). -/
def jsonBoundary : List Char → Prop
  | [] => True
  | c :: _ => c.isDigit = false

theorem takeWhile_append_all (p : Char → Bool) (l r : List Char)
    (hl : ∀ c ∈ l, p c = true)
    (hr : ∀ c cs, r = c :: cs → p c = false) :
    (l ++ r).takeWhile p = l ∧ (l ++ r).dropWhile p = r := by
  induction l with
  | nil =>
    simp only [List.nil_append]
    cases r with
    | nil => exact ⟨rfl, rfl⟩
    | cons c rr =>
      have hc : p c = false := hr c rr rfl
      rw [List.takeWhile_cons, List.dropWhile_cons, hc]
      exact ⟨by simp, by simp⟩
  | cons c l2 ih =>
    have hc : p c = true := hl c (List.mem_cons_self c l2)
    have hih := ih (fun x hx => hl x (List.mem_cons_of_mem c hx))
    rw [List.cons_append, List.takeWhile_cons, List.dropWhile_cons, hc]
    exact ⟨by simp [hih.1], by simp [hih.2]⟩

theorem parseNatChars_print (n : Nat) (rest : List Char) (hb : jsonBoundary rest) :
    parseNatChars (natToChars n ++ rest) = .ok (n, rest) := by
  rw [natToChars_eq]
  have hall : ∀ c ∈ digitsOfSpec n, (fun c => c.isDigit) c = true :=
    digitsOfSpec_all_digits n
  have hbd : ∀ c cs, rest = c :: cs → (fun c => c.isDigit) c = false := by
    intro c cs hEq
    rw [hEq] at hb
    exact hb
  have htd := takeWhile_append_all (fun c => c.isDigit) (digitsOfSpec n) rest hall hbd
  unfold parseNatChars
  rw [htd.1, htd.2, if_neg (by simpa using digitsOfSpec_ne_nil n)]
  rw [natOfDigits_digitsOfSpec]

theorem parseStringBody_escape (c : Char) (tail : List Char) :
    parseStringBody (escapeChar c ++ tail)
      = (parseStringBody tail).map (fun pr => (c :: pr.1, pr.2)) := by
  by_cases h1 : c = '"'
  · subst h1
    rw [show escapeChar '"' = ['\\', '"'] from rfl]
    rfl
  by_cases h2 : c = '\\'
  · subst h2
    rw [show escapeChar '\\' = ['\\', '\\'] from rfl]
    rfl
  by_cases h3 : c = '\n'
  · subst h3
    rw [show escapeChar '\n' = ['\\', 'n'] from rfl]
    rfl
  by_cases h4 : c = '\t'
  · subst h4
    rw [show escapeChar '\t' = ['\\', 't'] from rfl]
    rfl
  by_cases h5 : c = '\r'
  · subst h5
    rw [show escapeChar '\r' = ['\\', 'r'] from rfl]
    rfl
  by_cases h6 : c = Char.ofNat 8
  · subst h6
    rw [show escapeChar (Char.ofNat 8) = ['\\', 'b'] from rfl]
    rfl
  by_cases h7 : c = Char.ofNat 12
  · subst h7
    rw [show escapeChar (Char.ofNat 12) = ['\\', 'f'] from rfl]
    rfl
  by_cases h8 : c.toNat < 0x20
  · rw [show escapeChar c
        = ['\\', 'u', '0', '0', hexDigitChar (c.toNat / 16), hexDigitChar (c.toNat % 16)]
      from by
        unfold escapeChar
        rw [if_neg h1, if_neg h2, if_neg h3, if_neg h4, if_neg h5, if_neg h6, if_neg h7,
          if_pos h8]]
    show parseStringBody ('\\' :: 'u' :: '0' :: '0' :: hexDigitChar (c.toNat / 16)
      :: hexDigitChar (c.toNat % 16) :: tail) = _
    rw [show parseStringBody ('\\' :: 'u' :: '0' :: '0' :: hexDigitChar (c.toNat / 16)
        :: hexDigitChar (c.toNat % 16) :: tail)
      = (match parseHex4 '0' '0' (hexDigitChar (c.toNat / 16)) (hexDigitChar (c.toNat % 16)) with
        | some n => (parseStringBody tail).map (fun pr => (charOfCodepoint n :: pr.1, pr.2))
        | none => .error .jsonError) from rfl]
    have hp4 : parseHex4 '0' '0' (hexDigitChar (c.toNat / 16)) (hexDigitChar (c.toNat % 16))
        = some c.toNat := by
      unfold parseHex4
      rw [show hexDigitVal '0' = some 0 from rfl,
        hexDigitVal_hexDigitChar (c.toNat / 16) (by omega),
        hexDigitVal_hexDigitChar (c.toNat % 16) (by omega)]
      show some (4096 * 0 + 256 * 0 + 16 * (c.toNat / 16) + c.toNat % 16) = some c.toNat
      congr 1
      omega
    rw [hp4]
    show Except.map (fun pr => (charOfCodepoint c.toNat :: pr.1, pr.2)) (parseStringBody tail)
      = Except.map (fun pr => (c :: pr.1, pr.2)) (parseStringBody tail)
    rw [charOfCodepoint_toNat]
  · rw [show escapeChar c = [c] from by
      unfold escapeChar
      rw [if_neg h1, if_neg h2, if_neg h3, if_neg h4, if_neg h5, if_neg h6, if_neg h7,
        if_neg h8]]
    show parseStringBody (c :: tail) = _
    rw [parseStringBody, if_neg h1, if_neg h2]

theorem parseStringBody_print (cs : List Char) (rest : List Char) :
    parseStringBody (printStringBody cs ++ '"' :: rest) = .ok (cs, rest) := by
  induction cs with
  | nil => rfl
  | cons c cs2 ih =>
    rw [show printStringBody (c :: cs2) = escapeChar c ++ printStringBody cs2 from rfl,
      List.append_assoc, parseStringBody_escape, ih]
    rfl

/-- Characters that can begin a printed JSON value. -/
def jsonHeadOk (c : Char) : Prop :=
  c = '-' ∨ c.isDigit = true ∨ c = '"' ∨ c = '[' ∨ c = '{' ∨ c = 'n' ∨ c = 't' ∨ c = 'f'

theorem digitsOfSpec_head (m : Nat) :
    ∃ d ds, digitsOfSpec m = d :: ds ∧ d.isDigit = true := by
  induction m using Nat.strong_induction_on with
  | _ m ih =>
    by_cases h10 : m < 10
    · exact ⟨hexDigitChar m, [], by rw [digitsOfSpec, dif_pos h10],
        isDigit_hexDigitChar m h10⟩
    · rcases ih (m / 10) (by omega) with ⟨d, ds, hds, hd⟩
      refine ⟨d, ds ++ [hexDigitChar (m % 10)], ?_, hd⟩
      rw [digitsOfSpec, dif_neg h10, hds]
      rfl

theorem printJson_head (d : Json) :
    ∃ c cs, printJson d = c :: cs ∧ jsonHeadOk c := by
  cases d with
  | null => exact ⟨'n', _, rfl, by unfold jsonHeadOk; decide⟩
  | bool b =>
    cases b with
    | true => exact ⟨'t', _, rfl, by unfold jsonHeadOk; decide⟩
    | false => exact ⟨'f', _, rfl, by unfold jsonHeadOk; decide⟩
  | num n =>
    by_cases hn : n < 0
    · refine ⟨'-', natToChars n.natAbs, ?_, by unfold jsonHeadOk; decide⟩
      show intToChars n = _
      rw [intToChars, if_pos hn]
    · rcases digitsOfSpec_head n.natAbs with ⟨c, cs, hcs, hc⟩
      refine ⟨c, cs, ?_, Or.inr (Or.inl hc)⟩
      show intToChars n = _
      rw [intToChars, if_neg hn, natToChars_eq, hcs]
  | str s => exact ⟨'"', _, rfl, by unfold jsonHeadOk; decide⟩
  | arr xs => exact ⟨'[', _, rfl, by unfold jsonHeadOk; decide⟩
  | obj ms => exact ⟨'{', _, rfl, by unfold jsonHeadOk; decide⟩

theorem jsonHeadOk_ne (c : Char) (h : jsonHeadOk c) :
    c ≠ ']' ∧ c ≠ ',' ∧ c ≠ '}' ∧ c ≠ ':' := by
  rcases h with h | h | h | h | h | h | h | h
  all_goals first
    | (subst h; exact ⟨by decide, by decide, by decide, by decide⟩)
    | (refine ⟨?_, ?_, ?_, ?_⟩ <;> intro hc <;> rw [hc] at h <;> cases h)

theorem printJson_length_pos (d : Json) : 0 < (printJson d).length := by
  rcases printJson_head d with ⟨c, cs, hcs, _⟩
  rw [hcs]
  simp

theorem json_sizeOf_pos (d : Json) : 0 < sizeOf d := by
  cases d <;> simp_arith

theorem jsonArr_sizeOf_pos (xs : JsonArr) : 0 < sizeOf xs := by
  cases xs <;> simp_arith

theorem jsonObj_sizeOf_pos (ms : JsonObj) : 0 < sizeOf ms := by
  cases ms <;> simp_arith

theorem parse_print_aux : ∀ N : Nat,
    (∀ d : Json, sizeOf d ≤ N → ∀ fuel rest, (printJson d).length < fuel →
      jsonBoundary rest → parseValue fuel (printJson d ++ rest) = .ok (d, rest)) ∧
    (∀ xs : JsonArr, sizeOf xs ≤ N → ∀ f g rest,
      (printArrBody xs).length < f → (printArrBody xs).length < g →
      parseArrRest (parseValue f) g (printArrBody xs ++ ']' :: rest) = .ok (xs, rest)) ∧
    (∀ ms : JsonObj, sizeOf ms ≤ N → ∀ f g rest,
      (printObjBody ms).length < f → (printObjBody ms).length < g →
      parseObjRest (parseValue f) g (printObjBody ms ++ '}' :: rest) = .ok (ms, rest)) := by
  intro N
  induction N with
  | zero =>
    refine ⟨fun d hd => ?_, fun xs hxs => ?_, fun ms hms => ?_⟩
    · exact absurd hd (by have := json_sizeOf_pos d; omega)
    · exact absurd hxs (by have := jsonArr_sizeOf_pos xs; omega)
    · exact absurd hms (by have := jsonObj_sizeOf_pos ms; omega)
  | succ N ih =>
    refine ⟨fun d hd fuel rest hfuel hb => ?_, fun xs hxs f g rest hf hg => ?_,
      fun ms hms f g rest hf hg => ?_⟩
    · -- values
      obtain ⟨h, rfl⟩ : ∃ h, fuel = h + 1 :=
        ⟨fuel - 1, by have := printJson_length_pos d; omega⟩
      cases d with
      | null =>
        show parseValue (h + 1) ('n' :: 'u' :: 'l' :: 'l' :: rest) = .ok (.null, rest)
        rw [parseValue]
        rw [if_neg (by decide), if_neg (by decide), if_neg (by decide),
          if_neg (by decide), if_neg (by decide), if_pos rfl]
        rfl
      | bool b =>
        cases b with
        | true =>
          show parseValue (h + 1) ('t' :: 'r' :: 'u' :: 'e' :: rest) = .ok (.bool true, rest)
          rw [parseValue]
          rw [if_neg (by decide), if_neg (by decide), if_neg (by decide),
            if_neg (by decide), if_neg (by decide), if_neg (by decide), if_pos rfl]
          rfl
        | false =>
          show parseValue (h + 1) ('f' :: 'a' :: 'l' :: 's' :: 'e' :: rest)
            = .ok (.bool false, rest)
          rw [parseValue]
          rw [if_neg (by decide), if_neg (by decide), if_neg (by decide),
            if_neg (by decide), if_neg (by decide), if_neg (by decide),
            if_neg (by decide), if_pos rfl]
          rfl
      | num n =>
        by_cases hn : n < 0
        · rw [show printJson (.num n) = '-' :: natToChars n.natAbs from by
            show intToChars n = _
            rw [intToChars, if_pos hn]]
          show parseValue (h + 1) ('-' :: (natToChars n.natAbs ++ rest)) = .ok (.num n, rest)
          rw [parseValue, if_pos rfl, parseNatChars_print n.natAbs rest hb]
          show Except.ok (Json.num (-(n.natAbs : Int)), rest) = .ok (.num n, rest)
          have hval : (-(n.natAbs : Int)) = n := by omega
          rw [hval]
        · rcases digitsOfSpec_head n.natAbs with ⟨c, cs, hcs, hc⟩
          have hpr : printJson (.num n) = c :: cs := by
            show intToChars n = _
            rw [intToChars, if_neg hn, natToChars_eq, hcs]
          rw [hpr]
          show parseValue (h + 1) (c :: (cs ++ rest)) = .ok (.num n, rest)
          rw [parseValue]
          rw [if_neg (by intro hcon; rw [hcon] at hc; cases hc), if_pos hc]
          have hnat : c :: (cs ++ rest) = natToChars n.natAbs ++ rest := by
            rw [natToChars_eq, hcs]
            rfl
          rw [hnat, parseNatChars_print n.natAbs rest hb]
          show Except.ok (Json.num ((n.natAbs : Nat) : Int), rest) = .ok (.num n, rest)
          have hval : ((n.natAbs : Nat) : Int) = n := by omega
          rw [hval]
      | str s =>
        show parseValue (h + 1) (('"' :: printStringBody s.data ++ ['"']) ++ rest)
          = .ok (.str s, rest)
        rw [show ('"' :: printStringBody s.data ++ ['"']) ++ rest
          = '"' :: (printStringBody s.data ++ '"' :: rest) from by simp]
        rw [parseValue]
        rw [if_neg (by decide), if_neg (by decide), if_pos rfl]
        rw [parseStringBody_print s.data rest]
        rfl
      | arr xs =>
        show parseValue (h + 1) (('[' :: printArrBody xs ++ [']']) ++ rest)
          = .ok (.arr xs, rest)
        rw [show ('[' :: printArrBody xs ++ [']']) ++ rest
          = '[' :: (printArrBody xs ++ ']' :: rest) from by simp]
        rw [parseValue]
        rw [if_neg (by decide), if_neg (by decide), if_neg (by decide), if_pos rfl]
        have hlen : (printArrBody xs).length < h := by
          have : (printJson (.arr xs)).length = (printArrBody xs).length + 2 := by
            show ('[' :: printArrBody xs ++ [']']).length = _
            simp
          omega
        rw [ih.2.1 xs (by simp_arith at hd; omega) h h rest hlen hlen]
        rfl
      | obj ms =>
        show parseValue (h + 1) (('{' :: printObjBody ms ++ ['}']) ++ rest)
          = .ok (.obj ms, rest)
        rw [show ('{' :: printObjBody ms ++ ['}']) ++ rest
          = '{' :: (printObjBody ms ++ '}' :: rest) from by simp]
        rw [parseValue]
        rw [if_neg (by decide), if_neg (by decide), if_neg (by decide),
          if_neg (by decide), if_pos rfl]
        have hlen : (printObjBody ms).length < h := by
          have : (printJson (.obj ms)).length = (printObjBody ms).length + 2 := by
            show ('{' :: printObjBody ms ++ ['}']).length = _
            simp
          omega
        rw [ih.2.2 ms (by simp_arith at hd; omega) h h rest hlen hlen]
        rfl
    · -- array bodies
      obtain ⟨g2, rfl⟩ : ∃ g2, g = g2 + 1 := ⟨g - 1, by omega⟩
      cases xs with
      | nil =>
        show parseArrRest (parseValue f) (g2 + 1) (']' :: rest) = .ok (.nil, rest)
        rw [parseArrRest, if_pos rfl]
      | cons x t =>
        rcases printJson_head x with ⟨c, cs, hcs, hcok⟩
        have hne := jsonHeadOk_ne c hcok
        have hsx : sizeOf x ≤ N := by simp_arith at hxs; omega
        have hst : sizeOf t ≤ N := by simp_arith at hxs; omega
        cases t with
        | nil =>
          show parseArrRest (parseValue f) (g2 + 1)
            ((printJson x ++ [] ++ []) ++ ']' :: rest) = .ok (.cons x .nil, rest)
          rw [show (printJson x ++ [] ++ []) ++ ']' :: rest
            = printJson x ++ ']' :: rest from by simp]
          have hlenx : (printJson x).length < f := by
            have : (printArrBody (JsonArr.cons x .nil)).length = (printJson x).length := by
              show (printJson x ++ [] ++ []).length = _
              simp
            omega
          have hpx := ih.1 x hsx f (']' :: rest) hlenx (by show (']').isDigit = false; decide)
          rw [hcs] at hpx ⊢
          rw [List.cons_append]
          rw [parseArrRest, if_neg hne.1]
          rw [show (c :: (cs ++ ']' :: rest)) = (c :: cs) ++ ']' :: rest from rfl, hpx]
          rfl
        | cons y t2 =>
          show parseArrRest (parseValue f) (g2 + 1)
            ((printJson x ++ [','] ++ printArrBody (JsonArr.cons y t2)) ++ ']' :: rest)
            = .ok (.cons x (.cons y t2), rest)
          rw [show (printJson x ++ [','] ++ printArrBody (JsonArr.cons y t2)) ++ ']' :: rest
            = printJson x ++ ',' :: (printArrBody (JsonArr.cons y t2) ++ ']' :: rest)
            from by simp]
          have hlenx : (printJson x).length < f := by
            have : (printArrBody (JsonArr.cons x (.cons y t2))).length
                = (printJson x).length + 1 + (printArrBody (JsonArr.cons y t2)).length := by
              show (printJson x ++ [','] ++ printArrBody (JsonArr.cons y t2)).length = _
              simp
              omega
            omega
          have hpx := ih.1 x hsx f (',' :: (printArrBody (JsonArr.cons y t2) ++ ']' :: rest))
            hlenx (by show (',').isDigit = false; decide)
          rw [hcs] at hpx ⊢
          rw [List.cons_append]
          rw [parseArrRest, if_neg hne.1]
          rw [show (c :: (cs ++ ',' :: (printArrBody (JsonArr.cons y t2) ++ ']' :: rest)))
            = (c :: cs) ++ ',' :: (printArrBody (JsonArr.cons y t2) ++ ']' :: rest) from rfl,
            hpx]
          have hlent : (printArrBody (JsonArr.cons y t2)).length < f
              ∧ (printArrBody (JsonArr.cons y t2)).length < g2 := by
            have : (printArrBody (JsonArr.cons x (.cons y t2))).length
                = (printJson x).length + 1 + (printArrBody (JsonArr.cons y t2)).length := by
              show (printJson x ++ [','] ++ printArrBody (JsonArr.cons y t2)).length = _
              simp
              omega
            have hpos := printJson_length_pos x
            constructor <;> omega
          show (parseArrRest (parseValue f) g2
            (printArrBody (JsonArr.cons y t2) ++ ']' :: rest)).map
              (fun pr => (JsonArr.cons x pr.1, pr.2)) = _
          rw [ih.2.1 (JsonArr.cons y t2) hst f g2 rest hlent.1 hlent.2]
          rfl
    · -- object bodies
      obtain ⟨g2, rfl⟩ : ∃ g2, g = g2 + 1 := ⟨g - 1, by omega⟩
      cases ms with
      | nil =>
        show parseObjRest (parseValue f) (g2 + 1) ('}' :: rest) = .ok (.nil, rest)
        rw [parseObjRest, if_pos rfl]
      | cons k v t =>
        have hsv : sizeOf v ≤ N := by simp_arith at hms; omega
        have hst : sizeOf t ≤ N := by simp_arith at hms; omega
        have hkey : printString k = '"' :: (printStringBody k.data ++ ['"']) := rfl
        cases t with
        | nil =>
          show parseObjRest (parseValue f) (g2 + 1)
            ((printString k ++ ':' :: printJson v ++ [] ++ []) ++ '}' :: rest)
            = .ok (.cons k v .nil, rest)
          rw [show (printString k ++ ':' :: printJson v ++ [] ++ []) ++ '}' :: rest
            = '"' :: (printStringBody k.data
              ++ '"' :: (':' :: (printJson v ++ '}' :: rest))) from by
            rw [hkey]; simp]
          rw [parseObjRest, if_neg (by decide), if_pos rfl]
          rw [parseStringBody_print k.data (':' :: (printJson v ++ '}' :: rest))]
          have hlenv : (printJson v).length < f := by
            have : (printObjBody (JsonObj.cons k v .nil)).length
                = (printString k).length + 1 + (printJson v).length := by
              show (printString k ++ ':' :: printJson v ++ [] ++ []).length = _
              simp
              omega
            omega
          show (match parseValue f (printJson v ++ '}' :: rest) with
            | .error e => Except.error e
            | .ok (w, r4) =>
              match r4 with
              | ',' :: r5 => (parseObjRest (parseValue f) g2 r5).map
                  (fun pr : JsonObj × List Char =>
                    (JsonObj.cons (String.mk k.data) w pr.1, pr.2))
              | '}' :: r5 => .ok (.cons (String.mk k.data) w .nil, r5)
              | _ => .error .jsonError) = .ok (.cons k v .nil, rest)
          rw [ih.1 v hsv f ('}' :: rest) hlenv (by show ('}').isDigit = false; decide)]
          rfl
        | cons k2 v2 t2 =>
          show parseObjRest (parseValue f) (g2 + 1)
            ((printString k ++ ':' :: printJson v ++ [',']
              ++ printObjBody (JsonObj.cons k2 v2 t2)) ++ '}' :: rest)
            = .ok (.cons k v (.cons k2 v2 t2), rest)
          rw [show (printString k ++ ':' :: printJson v ++ [',']
              ++ printObjBody (JsonObj.cons k2 v2 t2)) ++ '}' :: rest
            = '"' :: (printStringBody k.data
              ++ '"' :: (':' :: (printJson v
                ++ ',' :: (printObjBody (JsonObj.cons k2 v2 t2) ++ '}' :: rest)))) from by
            rw [hkey]; simp]
          rw [parseObjRest, if_neg (by decide), if_pos rfl]
          rw [parseStringBody_print k.data
            (':' :: (printJson v ++ ',' :: (printObjBody (JsonObj.cons k2 v2 t2)
              ++ '}' :: rest)))]
          have hlens : (printObjBody (JsonObj.cons k v (.cons k2 v2 t2))).length
              = (printString k).length + 1 + (printJson v).length + 1
                + (printObjBody (JsonObj.cons k2 v2 t2)).length := by
            show (printString k ++ ':' :: printJson v ++ [',']
              ++ printObjBody (JsonObj.cons k2 v2 t2)).length = _
            simp
            omega
          have hlenv : (printJson v).length < f := by omega
          show (match parseValue f (printJson v
              ++ ',' :: (printObjBody (JsonObj.cons k2 v2 t2) ++ '}' :: rest)) with
            | .error e => Except.error e
            | .ok (w, r4) =>
              match r4 with
              | ',' :: r5 => (parseObjRest (parseValue f) g2 r5).map
                  (fun pr : JsonObj × List Char =>
                    (JsonObj.cons (String.mk k.data) w pr.1, pr.2))
              | '}' :: r5 => .ok (.cons (String.mk k.data) w .nil, r5)
              | _ => .error .jsonError) = .ok (.cons k v (.cons k2 v2 t2), rest)
          rw [ih.1 v hsv f
            (',' :: (printObjBody (JsonObj.cons k2 v2 t2) ++ '}' :: rest)) hlenv
            (by show (',').isDigit = false; decide)]
          have hlent : (printObjBody (JsonObj.cons k2 v2 t2)).length < f
              ∧ (printObjBody (JsonObj.cons k2 v2 t2)).length < g2 := by
            constructor <;> omega
          show (parseObjRest (parseValue f) g2
            (printObjBody (JsonObj.cons k2 v2 t2) ++ '}' :: rest)).map
              (fun pr : JsonObj × List Char =>
                (JsonObj.cons (String.mk k.data) v pr.1, pr.2))
            = .ok (.cons k v (.cons k2 v2 t2), rest)
          rw [ih.2.2 (JsonObj.cons k2 v2 t2) hst f g2 rest hlent.1 hlent.2]
          rfl

/-- Parsing the printed form of a JSON value returns the value. -/
theorem jsonParse_stringify (d : Json) : jsonParse (jsonStringify d) = .ok d := by
  have h := (parse_print_aux (sizeOf d)).1 d le_rfl ((printJson d).length + 1) []
    (by omega) trivial
  rw [List.append_nil] at h
  show (match parseValue ((printJson d).length + 1) (printJson d) with
    | .ok (j, []) => Except.ok j
    | .ok (_, _ :: _) => Except.error Err.jsonError
    | .error e => Except.error e) = .ok d
  rw [h]

/-- Witness for C6 at the concrete scenario: foo retained, the three
present fields set, no state parameter present. -/
theorem response_redirect_url_witness :
    ∃ q, createResponseRedirectUrl ⟨"ab12", "bearer", 3600, none, none⟩
        "https://rp.example/cb?foo=1" = .ok ⟨"https", "rp.example", "/cb", q⟩ ∧
      q.filter (fun kv => !(responseParamKeys.contains kv.1)) = [("foo", "1")] ∧
      getParam q "access_token" = some "ab12" ∧
      getParam q "expires_in" = some "3600" ∧
      getParam q "token_type" = some "bearer" ∧
      getParam q "state" = none ∧
      getParam q "scope" = none :=
  response_redirect_url_sets_present_removes_absent
    ⟨"ab12", "bearer", 3600, none, none⟩ "https://rp.example/cb?foo=1"
    ⟨"https", "rp.example", "/cb", [("foo", "1")]⟩ (by rfl)

/-! Bearer token codec. -/

/-- Lookup of an object member by key. -/
def jsonObjLookup : JsonObj → String → Option Json
  | .nil, _ => none
  | .cons k2 v t, k => if k2 = k then some v else jsonObjLookup t k

/-- JavaScript property access `parsed.key` on the decoded JSON value:
reading a property of `null` throws a TypeError; an object yields the
member value or undefined; every other value yields undefined. -/
def jsGetField (j : Json) (k : String) : Except Err (Option Json) :=
  match j with
  | .null => .error .typeError
  | .obj ms => .ok (jsonObjLookup ms k)
  | _ => .ok none

/-- The `typeof x === 'string'` test of the source on a possibly
undefined JSON value. -/
def isStringValue : Option Json → Bool
  | some (.str _) => true
  | _ => false

/-- JavaScript truthiness of a JSON value (`NaN` cannot result from
`JSON.parse`). -/
def jsTruthy : Json → Bool
  | .null => false
  | .bool b => b
  | .num n => !(n == 0)
  | .str s => !(s == "")
  | .arr _ => true
  | .obj _ => true

/-- JavaScript truthiness of a possibly undefined value, the test
performed by `assert.ok`. -/
def truthyOpt : Option Json → Bool
  | none => false
  | some v => jsTruthy v

/-- Embedding of `parseBearerToken`: hex-decode, UTF-8-decode, JSON
parse, then read `publicKey` and `delegations`, throw when `publicKey`
is not a string, assert that `delegations` is truthy — and return the
raw parsed value (the narrowed `result` object the source constructs is
discarded by its `return parsed`). -/
def parseBearerToken (icIdpBearerToken : String) : Except Err Json :=
  match hexToBytes icIdpBearerToken with
  | .error e => .error e
  | .ok bytes =>
    match jsonParse (decodeUtf8 bytes) with
    | .error e => .error e
    | .ok parsed =>
      match jsGetField parsed "publicKey" with
      | .error e => .error e
      | .ok publicKey =>
        match jsGetField parsed "delegations" with
        | .error e => .error e
        | .ok delegations =>
          if isStringValue publicKey then
            if truthyOpt delegations then .ok parsed
            else .error .assertionFailed
          else .error (.jsError "publicKey must be a string")

/-- Embedding of `createBearerToken`.  Modelled from the spec: the
`DelegationChain` of the authentication package (not under the given
sources) is an opaque JSON-serializable value, represented by its JSON
value; the source serializes it with `JSON.stringify`, UTF-8-encodes
the text and hex-encodes the bytes. -/
def createBearerToken (delegationChain : Json) : String :=
  hexEncodeUintArray (utf8Encode (jsonStringify delegationChain))

theorem hexToBytes_hexEncodeUintArray (bs : List Nat) (h : ∀ b ∈ bs, b < 256) :
    hexToBytes (hexEncodeUintArray bs) = .ok bs := by
  show hexDecodeChars (hexEncodeUintArray bs).data = .ok bs
  rw [show (hexEncodeUintArray bs).data = hexEncodeChars bs from rfl]
  exact hexDecode_hexEncode bs h

/-- Evaluation lemma: once the hex, UTF-8 and JSON stages of
`parseBearerToken` are pinned by hypotheses, the result is determined
by the `publicKey` string check and the truthiness of `delegations`. -/
theorem parseBearerToken_step (t : String) (bs : List Nat) (j : Json)
    (pkv dv : Option Json)
    (hhex : hexToBytes t = .ok bs)
    (hjson : jsonParse (decodeUtf8 bs) = .ok j)
    (hpk : jsGetField j "publicKey" = .ok pkv)
    (hdel : jsGetField j "delegations" = .ok dv) :
    parseBearerToken t
      = if isStringValue pkv then
          if truthyOpt dv then .ok j else .error .assertionFailed
        else .error (.jsError "publicKey must be a string") := by
  unfold parseBearerToken
  rw [hhex]
  show (match jsonParse (decodeUtf8 bs) with
    | .error e => Except.error e
    | .ok parsed =>
      match jsGetField parsed "publicKey" with
      | .error e => Except.error e
      | .ok publicKey =>
        match jsGetField parsed "delegations" with
        | .error e => Except.error e
        | .ok delegations =>
          if isStringValue publicKey = true then
            if truthyOpt delegations = true then Except.ok parsed
            else Except.error Err.assertionFailed
          else Except.error (Err.jsError "publicKey must be a string")) = _
  rw [hjson]
  show (match jsGetField j "publicKey" with
    | .error e => Except.error e
    | .ok publicKey =>
      match jsGetField j "delegations" with
      | .error e => Except.error e
      | .ok delegations =>
        if isStringValue publicKey = true then
          if truthyOpt delegations = true then Except.ok j
          else Except.error Err.assertionFailed
        else Except.error (Err.jsError "publicKey must be a string")) = _
  rw [hpk]
  show (match jsGetField j "delegations" with
    | .error e => Except.error e
    | .ok delegations =>
      if isStringValue pkv = true then
        if truthyOpt delegations = true then Except.ok j
        else Except.error Err.assertionFailed
      else Except.error (Err.jsError "publicKey must be a string")) = _
  rw [hdel]

/-- C5 (amended): `parseBearerToken` fails with the error message
`publicKey must be a string` when the decoded `publicKey` is not a
string; when `publicKey` is a string the `delegations` check is an
`assert.ok`, which fails (with an assertion error carrying no
`delegations required` message) exactly when `delegations` is falsy —
undefined, null, false, zero or the empty string — and passes on every
truthy value. -/
theorem bearer_token_validation (t : String) (bs : List Nat) (j : Json)
    (pkv dv : Option Json)
    (hhex : hexToBytes t = .ok bs)
    (hjson : jsonParse (decodeUtf8 bs) = .ok j)
    (hpk : jsGetField j "publicKey" = .ok pkv)
    (hdel : jsGetField j "delegations" = .ok dv) :
    (isStringValue pkv = false →
      parseBearerToken t = .error (.jsError "publicKey must be a string")) ∧
    (isStringValue pkv = true → truthyOpt dv = false →
      parseBearerToken t = .error .assertionFailed) ∧
    (isStringValue pkv = true → truthyOpt dv = true →
      parseBearerToken t = .ok j) := by
  have hstep := parseBearerToken_step t bs j pkv dv hhex hjson hpk hdel
  refine ⟨fun hs => ?_, fun hs ht => ?_, fun hs ht => ?_⟩
  · rw [hstep, hs]
    rfl
  · rw [hstep, hs, ht]
    rfl
  · rw [hstep, hs, ht]
    rfl

set_option maxHeartbeats 4000000 in
/-- Counterexample for C5 as stated: a token whose decoded
`delegations` field is present (the number zero, neither null nor
undefined) still fails the delegations check, and the failure is an
assertion error, not an error carrying the message
`delegations required`. -/
theorem bearer_token_validation_counterexample :
    hexToBytes "7b227075626c69634b6579223a2261222c2264656c65676174696f6e73223a307d"
      = .ok [123, 34, 112, 117, 98, 108, 105, 99, 75, 101, 121, 34, 58, 34, 97, 34, 44,
          34, 100, 101, 108, 101, 103, 97, 116, 105, 111, 110, 115, 34, 58, 48, 125] ∧
    jsonParse (decodeUtf8 [123, 34, 112, 117, 98, 108, 105, 99, 75, 101, 121, 34, 58,
          34, 97, 34, 44, 34, 100, 101, 108, 101, 103, 97, 116, 105, 111, 110, 115, 34,
          58, 48, 125])
      = .ok (.obj (.cons "publicKey" (.str "a") (.cons "delegations" (.num 0) .nil))) ∧
    jsGetField (.obj (.cons "publicKey" (.str "a") (.cons "delegations" (.num 0) .nil)))
        "delegations" = .ok (some (.num 0)) ∧
    parseBearerToken "7b227075626c69634b6579223a2261222c2264656c65676174696f6e73223a307d"
      = .error .assertionFailed ∧
    parseBearerToken "7b227075626c69634b6579223a2261222c2264656c65676174696f6e73223a307d"
      ≠ .error (.jsError "delegations required") := by
  have h4 : parseBearerToken
      "7b227075626c69634b6579223a2261222c2264656c65676174696f6e73223a307d"
      = .error .assertionFailed := by rfl
  refine ⟨by rfl, by rfl, by rfl, h4, ?_⟩
  rw [h4]
  intro hcontra
  simp at hcontra

set_option maxHeartbeats 4000000 in
/-- Witness for C5 at three concrete tokens: a numeric `publicKey`
fails with the string check message, a null `delegations` fails the
assertion, and a present truthy `delegations` passes. -/
theorem bearer_token_validation_witness :
    parseBearerToken "7b227075626c69634b6579223a352c2264656c65676174696f6e73223a317d"
      = .error (.jsError "publicKey must be a string") ∧
    parseBearerToken
        "7b227075626c69634b6579223a2261222c2264656c65676174696f6e73223a6e756c6c7d"
      = .error .assertionFailed ∧
    parseBearerToken "7b227075626c69634b6579223a2261222c2264656c65676174696f6e73223a5b5d7d"
      = .ok (.obj (.cons "publicKey" (.str "a")
          (.cons "delegations" (.arr .nil) .nil))) :=
  ⟨(bearer_token_validation
      "7b227075626c69634b6579223a352c2264656c65676174696f6e73223a317d"
      [123, 34, 112, 117, 98, 108, 105, 99, 75, 101, 121, 34, 58, 53, 44, 34, 100, 101,
       108, 101, 103, 97, 116, 105, 111, 110, 115, 34, 58, 49, 125]
      (.obj (.cons "publicKey" (.num 5) (.cons "delegations" (.num 1) .nil)))
      (some (.num 5)) (some (.num 1)) (by rfl) (by rfl) (by rfl) (by rfl)).1 (by rfl),
   (bearer_token_validation
      "7b227075626c69634b6579223a2261222c2264656c65676174696f6e73223a6e756c6c7d"
      [123, 34, 112, 117, 98, 108, 105, 99, 75, 101, 121, 34, 58, 34, 97, 34, 44, 34,
       100, 101, 108, 101, 103, 97, 116, 105, 111, 110, 115, 34, 58, 110, 117, 108, 108,
       125]
      (.obj (.cons "publicKey" (.str "a") (.cons "delegations" .null .nil)))
      (some (.str "a")) (some .null) (by rfl) (by rfl) (by rfl) (by rfl)).2.1 (by rfl) (by rfl),
   (bearer_token_validation
      "7b227075626c69634b6579223a2261222c2264656c65676174696f6e73223a5b5d7d"
      [123, 34, 112, 117, 98, 108, 105, 99, 75, 101, 121, 34, 58, 34, 97, 34, 44, 34,
       100, 101, 108, 101, 103, 97, 116, 105, 111, 110, 115, 34, 58, 91, 93, 125]
      (.obj (.cons "publicKey" (.str "a") (.cons "delegations" (.arr .nil) .nil)))
      (some (.str "a")) (some (.arr .nil)) (by rfl) (by rfl) (by rfl) (by rfl)).2.2 (by rfl) (by rfl)⟩

/-- C2 (amended): for every token whose hex, UTF-8 and JSON decode
yield a value with a string `publicKey` and a truthy `delegations`
field, `parseBearerToken` returns the raw JSON-parsed value itself,
extra fields included, not the narrowed validated object; consequently
decoding `createBearerToken d` for such a value `d` yields `d` itself,
so its `publicKey` and `delegations` fields match those of `d`. -/
theorem bearer_token_raw_roundtrip :
    (∀ t bs j pkv dv,
      hexToBytes t = .ok bs →
      jsonParse (decodeUtf8 bs) = .ok j →
      jsGetField j "publicKey" = .ok pkv → isStringValue pkv = true →
      jsGetField j "delegations" = .ok dv → truthyOpt dv = true →
      parseBearerToken t = .ok j) ∧
    (∀ d pkv dv,
      jsGetField d "publicKey" = .ok pkv → isStringValue pkv = true →
      jsGetField d "delegations" = .ok dv → truthyOpt dv = true →
      parseBearerToken (createBearerToken d) = .ok d) := by
  have hraw : ∀ t bs j pkv dv,
      hexToBytes t = .ok bs →
      jsonParse (decodeUtf8 bs) = .ok j →
      jsGetField j "publicKey" = .ok pkv → isStringValue pkv = true →
      jsGetField j "delegations" = .ok dv → truthyOpt dv = true →
      parseBearerToken t = .ok j := by
    intro t bs j pkv dv hhex hjson hpk hs hdel ht
    rw [parseBearerToken_step t bs j pkv dv hhex hjson hpk hdel, hs, ht]
    rfl
  refine ⟨hraw, fun d pkv dv hpk hs hdel ht => ?_⟩
  have hbytes : hexToBytes (createBearerToken d) = .ok (utf8Encode (jsonStringify d)) :=
    hexToBytes_hexEncodeUintArray _ (utf8Encode_lt _)
  have hjson : jsonParse (decodeUtf8 (utf8Encode (jsonStringify d))) = .ok d := by
    rw [utf8Decode_encode]
    exact jsonParse_stringify d
  exact hraw (createBearerToken d) _ d pkv dv hbytes hjson hpk hs hdel ht

set_option maxHeartbeats 4000000 in
/-- Counterexample for C2 as stated: a token whose decoded value has a
string `publicKey` and a present `delegations` field (the boolean
false) makes `parseBearerToken` throw instead of returning the raw
parsed value. -/
theorem bearer_token_raw_counterexample :
    hexToBytes "7b227075626c69634b6579223a2261222c2264656c65676174696f6e73223a66616c73657d"
      = .ok [123, 34, 112, 117, 98, 108, 105, 99, 75, 101, 121, 34, 58, 34, 97, 34, 44,
          34, 100, 101, 108, 101, 103, 97, 116, 105, 111, 110, 115, 34, 58, 102, 97,
          108, 115, 101, 125] ∧
    jsonParse (decodeUtf8 [123, 34, 112, 117, 98, 108, 105, 99, 75, 101, 121, 34, 58,
          34, 97, 34, 44, 34, 100, 101, 108, 101, 103, 97, 116, 105, 111, 110, 115, 34,
          58, 102, 97, 108, 115, 101, 125])
      = .ok (.obj (.cons "publicKey" (.str "a")
          (.cons "delegations" (.bool false) .nil))) ∧
    jsGetField (.obj (.cons "publicKey" (.str "a")
        (.cons "delegations" (.bool false) .nil))) "publicKey"
      = .ok (some (.str "a")) ∧
    jsGetField (.obj (.cons "publicKey" (.str "a")
        (.cons "delegations" (.bool false) .nil))) "delegations"
      = .ok (some (.bool false)) ∧
    parseBearerToken
        "7b227075626c69634b6579223a2261222c2264656c65676174696f6e73223a66616c73657d"
      = .error .assertionFailed :=
  ⟨by rfl, by rfl, by rfl, by rfl, by rfl⟩

set_option maxHeartbeats 4000000 in
/-- Witness for C2: a token carrying an extra `x` field decodes to the
raw parsed value with that extra field preserved, and a delegation
value round-trips through `createBearerToken` and `parseBearerToken`
unchanged. -/
theorem bearer_token_raw_roundtrip_witness :
    parseBearerToken
        "7b227075626c69634b6579223a2261222c2264656c65676174696f6e73223a5b5d2c2278223a317d"
      = .ok (.obj (.cons "publicKey" (.str "a")
          (.cons "delegations" (.arr .nil) (.cons "x" (.num 1) .nil)))) ∧
    parseBearerToken (createBearerToken (.obj (.cons "publicKey" (.str "deadbeef")
        (.cons "delegations" (.arr (.cons (.str "sig") .nil)) .nil))))
      = .ok (.obj (.cons "publicKey" (.str "deadbeef")
          (.cons "delegations" (.arr (.cons (.str "sig") .nil)) .nil))) :=
  ⟨bearer_token_raw_roundtrip.1
      "7b227075626c69634b6579223a2261222c2264656c65676174696f6e73223a5b5d2c2278223a317d"
      [123, 34, 112, 117, 98, 108, 105, 99, 75, 101, 121, 34, 58, 34, 97, 34, 44, 34,
       100, 101, 108, 101, 103, 97, 116, 105, 111, 110, 115, 34, 58, 91, 93, 44, 34,
       120, 34, 58, 49, 125]
      (.obj (.cons "publicKey" (.str "a")
        (.cons "delegations" (.arr .nil) (.cons "x" (.num 1) .nil))))
      (some (.str "a")) (some (.arr .nil)) (by rfl) (by rfl) (by rfl) (by rfl) (by rfl) (by rfl),
   bearer_token_raw_roundtrip.2 (.obj (.cons "publicKey" (.str "deadbeef")
        (.cons "delegations" (.arr (.cons (.str "sig") .nil)) .nil)))
      (some (.str "deadbeef")) (some (.arr (.cons (.str "sig") .nil))) (by rfl) (by rfl) (by rfl) (by rfl)⟩

end IcId
